import Mathlib

/-!
Verification of the layout / focus / input-dispatch core of `pygame_dialog.py`.

The Python source is shallowly embedded: pure functions become Lean functions,
object mutation becomes explicit state passing, Python exceptions become
`Except String` errors (raised before any state was written) or an explicit
`state × Option String` pair where the post-exception state matters.
Machine-level concerns delegated to pygame (font metrics, surfaces) are
abstracted as explicit numeric parameters, as the renderer interface is
external to the core.
-/

/-! ## Textbox.cursor_at (`pygame_dialog.py` lines 993-1009)

`cursor_at` runs a binary search over `cursor_indicator_widget_x`, which is
`text_rect.left + font.size(text[:cursor]).width`.  The font measurement is
the external renderer's; the search is embedded generically over a prefix
width function `f`.  The Python loop

    widget_x = abs_x - self.rect.left
    start = 0
    end = len(self.text)
    while start <= end:
        cursor = start + int((end - start) / 2)
        left = self.cursor_indicator_widget_x(cursor)
        if left > widget_x: end = cursor - 1
        elif left < widget_x: start = cursor + 1
        else: return cursor
    return cursor

returns the mid-point computed in the last executed iteration when the loop
falls through; `cursorLoop` returns `none` exactly when the loop body never
ran (then Python's `return cursor` would fault on an unbound local, which is
unreachable from `cursor_at` since `start = 0 ≤ len = end`). -/

def cursorLoop (f : ℤ → ℤ) (widgetX : ℤ) (start endd : ℤ) : Option ℤ :=
  if h : start ≤ endd then
    let cursor := start + (endd - start) / 2
    let left := f cursor
    if left > widgetX then
      some ((cursorLoop f widgetX start (cursor - 1)).getD cursor)
    else if left < widgetX then
      some ((cursorLoop f widgetX (cursor + 1) endd).getD cursor)
    else
      some cursor
  else
    none
termination_by (endd - start + 1).toNat
decreasing_by
  · have h1 : 0 ≤ (endd - start) / 2 := by
      apply Int.ediv_nonneg <;> omega
    have h2 : (endd - start) / 2 ≤ endd - start := by
      apply Int.ediv_le_self; omega
    omega
  · have h1 : 0 ≤ (endd - start) / 2 := by
      apply Int.ediv_nonneg <;> omega
    have h2 : (endd - start) / 2 ≤ endd - start := by
      apply Int.ediv_le_self; omega
    omega

/-- `Textbox.cursor_at(abs_x)`: subtracts the widget's left edge, then runs
the binary search over cursor positions `0 .. len(text)`. -/
def cursor_at (f : ℤ → ℤ) (rectLeft : ℤ) (absX : ℤ) (len : ℕ) : Option ℤ :=
  cursorLoop f (absX - rectLeft) 0 (len : ℤ)

theorem cursorLoop_isSome (f : ℤ → ℤ) (widgetX : ℤ) (start endd : ℤ)
    (h : start ≤ endd) : (cursorLoop f widgetX start endd).isSome := by
  rw [cursorLoop]
  simp only [h, dite_true]
  split
  · simp
  · split <;> simp

theorem cursorLoop_bounds (f : ℤ → ℤ) (widgetX : ℤ) (lo hi : ℤ)
    (start endd : ℤ) (hs : lo ≤ start) (he : endd ≤ hi) :
    ∀ c, cursorLoop f widgetX start endd = some c → lo ≤ c ∧ c ≤ hi := by
  intro c hc
  rw [cursorLoop] at hc
  by_cases h : start ≤ endd
  · simp only [h, dite_true] at hc
    have hd1 : 0 ≤ (endd - start) / 2 := by apply Int.ediv_nonneg <;> omega
    have hd2 : (endd - start) / 2 ≤ endd - start := by apply Int.ediv_le_self; omega
    set cursor := start + (endd - start) / 2 with hcur
    have hcb : lo ≤ cursor ∧ cursor ≤ hi := by omega
    split at hc
    · -- left > widgetX: recurse on (start, cursor - 1)
      rcases Option.eq_none_or_eq_some (cursorLoop f widgetX start (cursor - 1)) with hn | ⟨c', hs'⟩
      · rw [hn] at hc; simp at hc; omega
      · rw [hs'] at hc; simp at hc
        have := cursorLoop_bounds f widgetX lo hi start (cursor - 1) hs (by omega) c' hs'
        omega
    · split at hc
      · rcases Option.eq_none_or_eq_some (cursorLoop f widgetX (cursor + 1) endd) with hn | ⟨c', hs'⟩
        · rw [hn] at hc; simp at hc; omega
        · rw [hs'] at hc; simp at hc
          have := cursorLoop_bounds f widgetX lo hi (cursor + 1) endd (by omega) he c' hs'
          omega
      · simp at hc; omega
  · rw [dif_neg h] at hc
    exact absurd hc (by simp)
termination_by (endd - start + 1).toNat
decreasing_by
  · have h1 : 0 ≤ (endd - start) / 2 := by apply Int.ediv_nonneg <;> omega
    have h2 : (endd - start) / 2 ≤ endd - start := by apply Int.ediv_le_self; omega
    omega
  · have h1 : 0 ≤ (endd - start) / 2 := by apply Int.ediv_nonneg <;> omega
    have h2 : (endd - start) / 2 ≤ endd - start := by apply Int.ediv_le_self; omega
    omega

/-- C8: for every text string and every click x-coordinate, assuming the
prefix-width measurement function is non-decreasing on cursor indices
`0 .. len`, the binary-search loop in `cursor_at` terminates and returns an
integer cursor position in the range `[0, len(text)]`. -/
theorem c8_cursor_at_terminates_in_range (f : ℤ → ℤ) (rectLeft absX : ℤ) (len : ℕ)
    (hmono : ∀ i j : ℤ, 0 ≤ i → i ≤ j → j ≤ (len : ℤ) → f i ≤ f j) :
    ∃ c : ℤ, cursor_at f rectLeft absX len = some c ∧ 0 ≤ c ∧ c ≤ (len : ℤ) := by
  clear hmono
  have hs : (cursorLoop f (absX - rectLeft) 0 (len : ℤ)).isSome :=
    cursorLoop_isSome f (absX - rectLeft) 0 (len : ℤ) (by positivity)
  rcases Option.isSome_iff_exists.mp hs with ⟨c, hc⟩
  refine ⟨c, hc, ?_⟩
  exact cursorLoop_bounds f (absX - rectLeft) 0 (len : ℤ) 0 (len : ℤ) le_rfl le_rfl c hc

theorem c8_witness :
    (∀ i j : ℤ, 0 ≤ i → i ≤ j → j ≤ (5 : ℕ) → (fun z => 4 + 7 * z) i ≤ (fun z => 4 + 7 * z) j) ∧
    ∃ c : ℤ, cursor_at (fun z => 4 + 7 * z) 2 20 5 = some c ∧ 0 ≤ c ∧ c ≤ ((5 : ℕ) : ℤ) := by
  constructor
  · intro i j _ hij _; simp; omega
  · exact c8_cursor_at_terminates_in_range (fun z => 4 + 7 * z) 2 20 5
      (by intro i j _ hij _; simp; omega)

/-! ## Focus traversal (`pygame_dialog.py` lines 74-118 and 1279-1306)

A `Dialog`'s widgets are modelled as the flattened depth-first sequence that
`Layout.widgets()` yields; each entry records only the data the focus code
inspects: whether it is a `Label` and whether it is disabled.  Widget identity
(Python `is`) is the index into the sequence. -/

structure FWidget where
  isLabel : Bool
  disabled : Bool
deriving DecidableEq, Repr, Inhabited

/-- `Layout.focusable_widgets`: filter out labels and disabled widgets,
keeping traversal order.  Returns the indices of focusable widgets. -/
def focusable_widgets (ws : List FWidget) : List ℕ :=
  (List.range ws.length).filter
    (fun i => !(ws.getD i default).isLabel && !(ws.getD i default).disabled)

/-- `Layout.focusable_widget_before`: track the previous element while
scanning; return it when the scanned element is the given widget. -/
def fwBeforeGo (widget : ℕ) (prev : Option ℕ) : List ℕ → Option ℕ
  | [] => none
  | e :: rest => if e = widget then prev else fwBeforeGo widget (some e) rest

def focusable_widget_before (ws : List FWidget) (widget : ℕ) : Option ℕ :=
  fwBeforeGo widget none (focusable_widgets ws)

/-- `Layout.focusable_widget_after`: once the given widget has been seen,
return the next scanned element. -/
def fwAfterGo (widget : ℕ) (elemFound : Bool) : List ℕ → Option ℕ
  | [] => none
  | e :: rest => if elemFound then some e else fwAfterGo widget (e = widget) rest

def focusable_widget_after (ws : List FWidget) (widget : ℕ) : Option ℕ :=
  fwAfterGo widget false (focusable_widgets ws)

/-- `Layout.first_focusable_widget`: `for e in gen: return e` — the first
element, or Python `None` when the generator is empty. -/
def first_focusable_widget (ws : List FWidget) : Option ℕ :=
  (focusable_widgets ws).head?

/-- `Layout.last_focusable_widget`: `for e in gen: pass` then `return e`.
When the generator is empty the loop variable `e` is never bound, so the
`return` raises `UnboundLocalError` instead of yielding `None`. -/
def last_focusable_widget (ws : List FWidget) : Except String ℕ :=
  match (focusable_widgets ws).getLast? with
  | some e => .ok e
  | none => .error "UnboundLocalError: local variable referenced before assignment"

/-- The Tab branch of `Dialog._keydown` (lines 1289-1304), acting on the
focused-widget reference.  Errors model the Python exceptions raised on that
path: `last_focusable_widget`'s unbound local, and the
`self.__focused_widget.focused = True` write when the new reference is
`None`. -/
def tabFallback (ws : List FWidget) (shift : Bool) : Except String ℕ :=
  if shift then last_focusable_widget ws
  else match first_focusable_widget ws with
       | some e => .ok e
       | none => .error "AttributeError: NoneType object has no attribute focused"

def keydownTab (ws : List FWidget) (shift : Bool) (focused : Option ℕ) :
    Except String (Option ℕ) :=
  match focused with
  | none =>
    match tabFallback ws shift with
    | .ok e => .ok (some e)
    | .error s => .error s
  | some f =>
    match (if shift then focusable_widget_before ws f
           else focusable_widget_after ws f) with
    | some n => .ok (some n)
    | none =>
      match tabFallback ws shift with
      | .ok e => .ok (some e)
      | .error s => .error s

theorem focusable_nodup (ws : List FWidget) : (focusable_widgets ws).Nodup :=
  (List.nodup_range _).filter _

theorem focusable_mem_prop (ws : List FWidget) (i : ℕ)
    (h : i ∈ focusable_widgets ws) :
    i < ws.length ∧ (ws.getD i default).isLabel = false ∧
      (ws.getD i default).disabled = false := by
  unfold focusable_widgets at h
  have h1 := List.of_mem_filter h
  have h2 := List.mem_of_mem_filter h
  simp only [List.mem_range] at h2
  simp only [Bool.and_eq_true, Bool.not_eq_true'] at h1
  exact ⟨h2, h1.1, h1.2⟩

theorem fwAfterGo_last (widget : ℕ) (l : List ℕ) (hn : l.Nodup)
    (hmem : l.getLast? = some widget) : fwAfterGo widget false l = none := by
  induction l with
  | nil => simp at hmem
  | cons e rest ih =>
    rcases rest with _ | ⟨e2, rest2⟩
    · simp at hmem
      simp [fwAfterGo, hmem]
    · have hlast : (e2 :: rest2).getLast? = some widget := by
        rw [List.getLast?_cons_cons] at hmem
        exact hmem
      have hne : e ≠ widget := by
        intro he
        subst he
        exact (List.nodup_cons.mp hn).1 (List.mem_of_mem_getLast? hlast)
      have htail := ih (List.nodup_cons.mp hn).2 hlast
      simp only [fwAfterGo] at htail ⊢
      rw [if_neg (by simp), if_neg (by simp [hne])] at *
      exact htail

theorem fwBeforeGo_mem (widget : ℕ) (prev : Option ℕ) (l : List ℕ) (r : ℕ)
    (h : fwBeforeGo widget prev l = some r) : prev = some r ∨ r ∈ l := by
  induction l generalizing prev with
  | nil => simp [fwBeforeGo] at h
  | cons e rest ih =>
    simp only [fwBeforeGo] at h
    split at h
    · exact Or.inl h
    · rcases ih (some e) h with hpe | hmem
      · simp at hpe
        exact Or.inr (by simp [hpe])
      · exact Or.inr (List.mem_cons_of_mem _ hmem)

theorem fwAfterGo_mem (widget : ℕ) (b : Bool) (l : List ℕ) (r : ℕ)
    (h : fwAfterGo widget b l = some r) : r ∈ l := by
  induction l generalizing b with
  | nil => simp [fwAfterGo] at h
  | cons e rest ih =>
    simp only [fwAfterGo] at h
    split at h
    · simp at h; simp [h]
    · exact List.mem_cons_of_mem _ (ih _ h)

theorem tabFallback_mem (ws : List FWidget) (shift : Bool) (e : ℕ)
    (h : tabFallback ws shift = .ok e) : e ∈ focusable_widgets ws := by
  unfold tabFallback at h
  split at h
  · unfold last_focusable_widget at h
    split at h
    · next x hx =>
      cases h
      exact List.mem_of_mem_getLast? hx
    · cases h
  · unfold first_focusable_widget at h
    split at h
    · next x hx =>
      cases h
      exact List.mem_of_mem_head? hx
    · cases h

theorem keydownTab_mem (ws : List FWidget) (shift : Bool) (focused : Option ℕ) (i : ℕ)
    (h : keydownTab ws shift focused = .ok (some i)) : i ∈ focusable_widgets ws := by
  unfold keydownTab at h
  cases focused with
  | none =>
    simp only at h
    split at h
    · next e he =>
      cases h
      exact tabFallback_mem ws shift i he
    · cases h
  | some f =>
    simp only at h
    split at h
    · next n hn =>
      cases h
      split at hn
      · rcases fwBeforeGo_mem f none _ i hn with hpe | hmem
        · cases hpe
        · exact hmem
      · exact fwAfterGo_mem f false _ i hn
    · split at h
      · next e he =>
        cases h
        exact tabFallback_mem ws shift i he
      · cases h

/-- C7: in a Dialog with at least one focusable widget, Tab from the last
focusable widget wraps focus to the first, Shift+Tab from the first wraps to
the last, and every widget made a focus target by Tab traversal is neither a
`Label` nor disabled. -/
theorem c7_focus_wrap (ws : List FWidget) (firstW lastW : ℕ)
    (hfirst : first_focusable_widget ws = some firstW)
    (hlast : (focusable_widgets ws).getLast? = some lastW) :
    keydownTab ws false (some lastW) = .ok (some firstW) ∧
    keydownTab ws true (some firstW) = .ok (some lastW) ∧
    (∀ (shift : Bool) (focused : Option ℕ) (i : ℕ),
      keydownTab ws shift focused = .ok (some i) →
      i < ws.length ∧ (ws.getD i default).isLabel = false ∧
        (ws.getD i default).disabled = false) := by
  refine ⟨?_, ?_, ?_⟩
  · -- Tab from the last focusable widget
    have hafter : focusable_widget_after ws lastW = none :=
      fwAfterGo_last lastW (focusable_widgets ws) (focusable_nodup ws) hlast
    unfold keydownTab
    simp only [if_neg (by simp : ¬ (false = true)), hafter]
    have hfb : tabFallback ws false = .ok firstW := by
      unfold tabFallback
      rw [if_neg (by simp), hfirst]
    rw [hfb]
  · -- Shift+Tab from the first focusable widget
    have hbefore : focusable_widget_before ws firstW = none := by
      unfold focusable_widget_before
      unfold first_focusable_widget at hfirst
      rcases hl : focusable_widgets ws with _ | ⟨h0, rest⟩
      · rw [hl] at hfirst; simp at hfirst
      · rw [hl] at hfirst
        simp at hfirst
        simp [fwBeforeGo, hfirst]
    unfold keydownTab
    have hfb : tabFallback ws true = .ok lastW := by
      unfold tabFallback
      rw [if_pos rfl]
      unfold last_focusable_widget
      rw [hlast]
    simp [hbefore, hfb]
  · intro shift focused i h
    exact focusable_mem_prop ws i (keydownTab_mem ws shift focused i h)

/-- C7 witness: a dialog sequence [Label, Button, disabled Button, Button];
focusables are indices 1 and 3. -/
theorem c7_witness :
    first_focusable_widget
        [⟨true, false⟩, ⟨false, false⟩, ⟨false, true⟩, (⟨false, false⟩ : FWidget)] = some 1 ∧
    (focusable_widgets
        [⟨true, false⟩, ⟨false, false⟩, ⟨false, true⟩, (⟨false, false⟩ : FWidget)]).getLast? = some 3 ∧
    keydownTab [⟨true, false⟩, ⟨false, false⟩, ⟨false, true⟩, (⟨false, false⟩ : FWidget)]
        false (some 3) = .ok (some 1) := by
  refine ⟨by decide, by decide, ?_⟩
  exact (c7_focus_wrap
    [⟨true, false⟩, ⟨false, false⟩, ⟨false, true⟩, (⟨false, false⟩ : FWidget)]
    1 3 (by decide) (by decide)).1

/-- C10: when a layout has no focusable widgets, `last_focusable_widget`
fails with an unbound-local error rather than returning `None`, and hence a
Shift+Tab key press (whatever the current focus reference) raises that error
instead of being a no-op. -/
theorem c10_last_focusable_empty_raises (ws : List FWidget) (focused : Option ℕ)
    (h : focusable_widgets ws = []) :
    last_focusable_widget ws =
      .error "UnboundLocalError: local variable referenced before assignment" ∧
    keydownTab ws true focused =
      .error "UnboundLocalError: local variable referenced before assignment" := by
  have hlfw : last_focusable_widget ws =
      .error "UnboundLocalError: local variable referenced before assignment" := by
    unfold last_focusable_widget
    rw [h]
    rfl
  refine ⟨hlfw, ?_⟩
  have hfb : tabFallback ws true = .error
      "UnboundLocalError: local variable referenced before assignment" := by
    unfold tabFallback
    rw [if_pos rfl, hlfw]
  cases focused with
  | none =>
    unfold keydownTab
    rw [hfb]
  | some f =>
    unfold keydownTab
    have hbefore : focusable_widget_before ws f = none := by
      unfold focusable_widget_before
      rw [h]
      rfl
    simp [hbefore, hfb]

/-- C10 witness: a dialog whose only widgets are a label and a disabled
button has no focusable widgets. -/
theorem c10_witness :
    focusable_widgets [⟨true, false⟩, (⟨false, true⟩ : FWidget)] = [] ∧
    keydownTab [⟨true, false⟩, (⟨false, true⟩ : FWidget)] true none =
      .error "UnboundLocalError: local variable referenced before assignment" := by
  refine ⟨by decide, ?_⟩
  exact (c10_last_focusable_empty_raises
    [⟨true, false⟩, (⟨false, true⟩ : FWidget)] none (by decide)).2

/-! ## Radio groups (`pygame_dialog.py` lines 1013-1131)

The process-wide registry `Radio._groups` is flattened into one list of
radios in construction order; each entry carries its group id and `selected`
flag.  Radios are identified by index.  `Radio.click` iterates the members of
the clicked radio's group clearing `selected`, then sets it on the clicked
radio (the optional `click_handler` callback is external user code). -/

structure RadioW where
  group : String
  selected : Bool
deriving DecidableEq, Repr

def radioClick (s : List RadioW) (i : ℕ) : List RadioW :=
  match s[i]? with
  | none => s
  | some r =>
    (s.map fun q => if q.group = r.group then { q with selected := false } else q).set i
      { r with selected := true }

/-- A sequence of `click` calls, applied in order. -/
def radioClicks (s : List RadioW) (seq : List ℕ) : List RadioW :=
  seq.foldl radioClick s

/-- The group id of the radio at index `i`. -/
def groupAt (s : List RadioW) (i : ℕ) : Option String := (s[i]?).map RadioW.group

theorem radioClick_getElem (s : List RadioW) (i : ℕ) (ri : RadioW)
    (hi : s[i]? = some ri) (j : ℕ) :
    (radioClick s i)[j]? =
      if j = i then some ⟨ri.group, true⟩
      else (s[j]?).map (fun rj => if rj.group = ri.group then ⟨rj.group, false⟩ else rj) := by
  unfold radioClick
  rw [hi]
  have hlen : i < s.length := (List.getElem?_eq_some.mp hi).1
  by_cases hji : j = i
  · subst hji
    rw [List.getElem?_set_self (by simpa using hlen)]
    simp
  · rw [List.getElem?_set_ne (Ne.symm hji), List.getElem?_map]
    rw [if_neg hji]

theorem radioClick_length (s : List RadioW) (i : ℕ) :
    (radioClick s i).length = s.length := by
  unfold radioClick
  rcases h : s[i]? with _ | r
  · rfl
  · simp

theorem radioClicks_length (s : List RadioW) (seq : List ℕ) :
    (radioClicks s seq).length = s.length := by
  induction seq generalizing s with
  | nil => rfl
  | cons a rest ih =>
    show (radioClicks (radioClick s a) rest).length = s.length
    rw [ih, radioClick_length]

theorem radioClick_group (s : List RadioW) (i j : ℕ) :
    groupAt (radioClick s i) j = groupAt s j := by
  rcases hi : s[i]? with _ | ri
  · unfold radioClick; rw [hi]
  · unfold groupAt
    rw [radioClick_getElem s i ri hi j]
    by_cases hji : j = i
    · subst hji; rw [if_pos rfl, hi]; rfl
    · rw [if_neg hji]
      rcases s[j]? with _ | rj
      · rfl
      · by_cases hg : rj.group = ri.group <;> simp [hg]

theorem radioClicks_group (s : List RadioW) (seq : List ℕ) (j : ℕ) :
    groupAt (radioClicks s seq) j = groupAt s j := by
  induction seq generalizing s with
  | nil => rfl
  | cons a rest ih =>
    show groupAt (radioClicks (radioClick s a) rest) j = groupAt s j
    rw [ih, radioClick_group]

theorem radioClicks_selected (s0 : List RadioW) (seq : List ℕ)
    (hval : ∀ i ∈ seq, i < s0.length) (hinit : ∀ r ∈ s0, r.selected = false)
    (j : ℕ) (r' : RadioW) (hj : (radioClicks s0 seq)[j]? = some r') :
    (r'.selected = true ↔
      (seq.filter (fun i => groupAt s0 i = some r'.group)).getLast? = some j) := by
  induction seq using List.reverseRecOn generalizing j r' with
  | nil =>
    have hmem : r' ∈ s0 := by
      have := List.getElem?_eq_some.mp hj
      rcases this with ⟨hlt, hval'⟩
      exact hval' ▸ List.getElem_mem _
    simp [hinit r' hmem]
  | append_singleton l a ih =>
    have hval' : ∀ i ∈ l, i < s0.length := fun i hi => hval i (by simp [hi])
    have ha : a < s0.length := hval a (by simp)
    have hcat : radioClicks s0 (l ++ [a]) = radioClick (radioClicks s0 l) a := by
      unfold radioClicks
      rw [List.foldl_append]
      rfl
    set s1 := radioClicks s0 l with hs1
    have ha1 : a < s1.length := by rw [hs1, radioClicks_length]; exact ha
    have hsa : s1[a]? = some s1[a] := List.getElem?_eq_getElem ha1
    set ra := s1[a] with hra
    have hga : groupAt s0 a = some ra.group := by
      rw [← radioClicks_group s0 l a, ← hs1]
      unfold groupAt
      rw [hsa]
      rfl
    rw [hcat] at hj
    rw [radioClick_getElem s1 a ra hsa j] at hj
    rw [List.filter_append]
    by_cases hja : j = a
    · subst hja
      rw [if_pos rfl] at hj
      cases hj
      constructor
      · intro _
        have hpa : (groupAt s0 j = some (RadioW.mk ra.group true).group) := by
          simpa using hga
        simp only [List.filter_cons, List.filter_nil]
        rw [if_pos (by simpa using hpa)]
        exact List.getLast?_concat _
      · intro _; rfl
    · rw [if_neg hja] at hj
      rcases hj1 : s1[j]? with _ | rj
      · rw [hj1] at hj; cases hj
      · rw [hj1] at hj
        simp only [Option.map_some'] at hj
        by_cases hg : rj.group = ra.group
        · rw [if_pos hg] at hj
          cases hj
          constructor
          · intro hfalse; cases hfalse
          · intro hlast
            exfalso
            have hpa : (groupAt s0 a = some (RadioW.mk rj.group false).group) := by
              rw [hga, hg]
            simp only [List.filter_cons, List.filter_nil] at hlast
            rw [if_pos (by simpa using hpa)] at hlast
            rw [List.getLast?_concat] at hlast
            exact hja (by simpa using hlast.symm)
        · rw [if_neg hg] at hj
          cases hj
          have hpa : ¬ (groupAt s0 a = some r'.group) := by
            rw [hga]
            intro hc
            exact hg (by simpa using hc.symm)
          simp only [List.filter_cons, List.filter_nil]
          rw [if_neg (by simpa using hpa), List.append_nil]
          exact ih hval' j r' hj1

/-- C4: radio-group exclusivity.  (1) a `click` leaves every radio of a
different group untouched; (2) starting from freshly constructed (unselected)
radios, after any sequence of clicks on existing radios at most one member of
each group is selected, and (3) a radio is selected exactly when it is the
most recently clicked member of its group. -/
theorem c4_radio_exclusivity :
    (∀ (s : List RadioW) (i j : ℕ) (ri rj : RadioW),
      s[i]? = some ri → s[j]? = some rj → rj.group ≠ ri.group →
      (radioClick s i)[j]? = some rj) ∧
    (∀ (s0 : List RadioW) (seq : List ℕ),
      (∀ i ∈ seq, i < s0.length) → (∀ r ∈ s0, r.selected = false) →
      (∀ (j k : ℕ) (rj rk : RadioW),
        (radioClicks s0 seq)[j]? = some rj → (radioClicks s0 seq)[k]? = some rk →
        rj.selected = true → rk.selected = true → rj.group = rk.group → j = k) ∧
      (∀ (j : ℕ) (rj : RadioW), (radioClicks s0 seq)[j]? = some rj →
        (rj.selected = true ↔
          (seq.filter (fun i => groupAt s0 i = some rj.group)).getLast? = some j))) := by
  constructor
  · intro s i j ri rj hi hjj hg
    rw [radioClick_getElem s i ri hi j]
    have hji : j ≠ i := by
      intro he
      subst he
      rw [hi] at hjj
      cases hjj
      exact hg rfl
    rw [if_neg hji, hjj]
    simp [hg]
  · intro s0 seq hval hinit
    refine ⟨?_, fun j rj hj => radioClicks_selected s0 seq hval hinit j rj hj⟩
    intro j k rj rk hj hk hsj hsk hgjk
    have h1 := (radioClicks_selected s0 seq hval hinit j rj hj).mp hsj
    have h2 := (radioClicks_selected s0 seq hval hinit k rk hk).mp hsk
    rw [hgjk] at h1
    rw [h1] at h2
    exact Option.some_injective _ h2

/-- C4 witness: two radios in group g1, one in g2; click 0 then 1: radio 1 is
the only selected member of g1 and g2 is untouched. -/
theorem c4_witness :
    (radioClicks [⟨"g1", false⟩, ⟨"g1", false⟩, (⟨"g2", false⟩ : RadioW)] [0, 1]) =
      [⟨"g1", false⟩, ⟨"g1", true⟩, ⟨"g2", false⟩] ∧
    (∀ (j k : ℕ) (rj rk : RadioW),
      (radioClicks [⟨"g1", false⟩, ⟨"g1", false⟩, (⟨"g2", false⟩ : RadioW)] [0, 1])[j]? = some rj →
      (radioClicks [⟨"g1", false⟩, ⟨"g1", false⟩, (⟨"g2", false⟩ : RadioW)] [0, 1])[k]? = some rk →
      rj.selected = true → rk.selected = true → rj.group = rk.group → j = k) := by
  refine ⟨by decide, ?_⟩
  exact (c4_radio_exclusivity.2 [⟨"g1", false⟩, ⟨"g1", false⟩, (⟨"g2", false⟩ : RadioW)]
    [0, 1] (by decide) (by decide)).1

/-! ## Widget attribute protocol (`pygame_dialog.py` lines 467-566)

`Widget` instances are Python objects: attribute writes are intercepted by
`Widget.__setattr__` and reads fall back from the instance `__dict__` to
class attributes and then to `Widget.__getattr__`.  The instance dict is an
association list; attribute values are the kinds of values the widget code
stores (numbers, strings, booleans, numeric tuples, bound methods, `None`).
Raised exceptions are reported next to the resulting dict; every `raise` in
`__setattr__` occurs before any write, so the dict is returned unchanged with
the error. -/

inductive AVal where
  | int (n : ℤ)
  | str (s : String)
  | bool (b : Bool)
  | tup (l : List ℤ)
  | func (name : String)
  | pynone
deriving DecidableEq, Repr

def AVal.isTup : AVal → Bool
  | .tup _ => true
  | _ => false

abbrev AttrState := List (String × AVal)

def dictGet (d : AttrState) (k : String) : Option AVal :=
  match d with
  | [] => none
  | (k2, v) :: rest => if k2 = k then some v else dictGet rest k

def dictSet (d : AttrState) (k : String) (v : AVal) : AttrState :=
  match d with
  | [] => [(k, v)]
  | (k2, v2) :: rest => if k2 = k then (k2, v) :: rest else (k2, v2) :: dictSet rest k v

/-- The `Widget` class attributes (lines 469-495), plus its methods (bound
methods are what `getattr` yields for them). -/
def classDefault (name : String) : Option AVal :=
  if name = "margin" then some (.int 10)
  else if name = "padding" then some (.int 8)
  else if name = "foreground_color" then some (.tup [0, 0, 0])
  else if name = "background_color" then some (.tup [220, 220, 220])
  else if name = "disabled" ∨ name = "hovering" ∨ name = "focused" ∨ name = "dirty" then
    some (.bool false)
  else if name = "effect" then some (.str "no_effect")
  else if name = "bevel_depth" then some (.int 4)
  else if name = "border_radius" then some (.int 16)
  else if name = "rect" ∨ name = "height" ∨ name = "width" ∨
      name = "foreground_color_hover" ∨ name = "foreground_color_focus" ∨
      name = "foreground_color_disabled" ∨ name = "background_color_hover" ∨
      name = "background_color_focus" ∨ name = "background_color_disabled" ∨
      name = "effect_func" ∨ name = "click_handler" then
    some .pynone
  else if name = "no_effect" ∨ name = "solid_color" ∨ name = "bevel" ∨
      name = "bevel_inset" ∨ name = "rounded_corners" ∨ name = "mouse_in" ∨
      name = "mouse_out" ∨ name = "click" ∨ name = "key_down" ∨
      name = "get_surface" ∨ name = "current_foreground_color" ∨
      name = "current_background_color" ∨ name = "dump" then
    some (.func name)
  else none

/-- Python attribute lookup on a `Widget`: instance dict, then class
attribute, then `Widget.__getattr__` (lines 557-566), which returns the
scalar `margin`/`padding` for unset per-side names and, falling off its end,
`None` for any other unknown name. -/
def getattrW (d : AttrState) (name : String) : AVal :=
  match dictGet d name with
  | some v => v
  | none =>
    match classDefault name with
    | some v => v
    | none =>
      if name = "margin_top" ∨ name = "margin_right" ∨
          name = "margin_bottom" ∨ name = "margin_left" then
        match dictGet d "margin" with
        | some v => v
        | none => .int 10
      else if name = "padding_top" ∨ name = "padding_right" ∨
          name = "padding_bottom" ∨ name = "padding_left" then
        match dictGet d "padding" with
        | some v => v
        | none => .int 8
      else .pynone

/-- Python truthiness, for `value = not value` in the `enabled` branch. -/
def truthy : AVal → Bool
  | .int n => n ≠ 0
  | .str s => s ≠ ""
  | .bool b => b
  | .tup l => !l.isEmpty
  | .func _ => true
  | .pynone => false

/-- The unconditional tail of `Widget.__setattr__` (lines 551-554): set
`dirty` when the name is not `"dirty"` and is absent from the instance dict
or bound there to a different value, then store the value. -/
def plainSet (d : AttrState) (varname : String) (value : AVal) : AttrState :=
  let d1 := if varname ≠ "dirty" ∧ dictGet d varname ≠ some value
            then dictSet d "dirty" (.bool true) else d
  dictSet d1 varname value

/-- `Widget.__setattr__` (lines 504-554): the margin/padding tuple forms,
the `effect` name lookup, the `enabled` alias, then the generic store.  The
valid tuple branches fall through to the generic store of the tuple itself,
as in the source. -/
def setattrW (d : AttrState) (varname : String) (value : AVal) :
    AttrState × Option String :=
  match varname, value with
  | "margin", .tup l =>
    if l.length = 2 then
      let d1 := plainSet d "margin_top" (.int (l.getD 0 0))
      let d2 := plainSet d1 "margin_bottom" (.int (l.getD 0 0))
      let d3 := plainSet d2 "margin_left" (.int (l.getD 1 0))
      let d4 := plainSet d3 "margin_right" (.int (l.getD 1 0))
      (plainSet d4 "margin" (.tup l), none)
    else if l.length = 4 then
      let d1 := plainSet d "margin_top" (.int (l.getD 0 0))
      let d2 := plainSet d1 "margin_right" (.int (l.getD 1 0))
      let d3 := plainSet d2 "margin_bottom" (.int (l.getD 2 0))
      let d4 := plainSet d3 "margin_left" (.int (l.getD 3 0))
      (plainSet d4 "margin" (.tup l), none)
    else
      (d, some "Invalid margin value")
  | "padding", .tup l =>
    if l.length = 2 then
      let d1 := plainSet d "padding_top" (.int (l.getD 0 0))
      let d2 := plainSet d1 "padding_bottom" (.int (l.getD 0 0))
      let d3 := plainSet d2 "padding_left" (.int (l.getD 1 0))
      let d4 := plainSet d3 "padding_right" (.int (l.getD 1 0))
      (plainSet d4 "padding" (.tup l), none)
    else if l.length = 4 then
      let d1 := plainSet d "padding_top" (.int (l.getD 0 0))
      let d2 := plainSet d1 "padding_right" (.int (l.getD 1 0))
      let d3 := plainSet d2 "padding_bottom" (.int (l.getD 2 0))
      let d4 := plainSet d3 "padding_left" (.int (l.getD 3 0))
      (plainSet d4 "padding" (.tup l), none)
    else
      (d, some "Invalid padding value")
  | "effect", v =>
    match v with
    | .str s => (plainSet (plainSet d "effect_func" (getattrW d s)) "effect" (.str s), none)
    | _ => (d, some "TypeError: attribute name must be string")
  | "enabled", v => (plainSet d "disabled" (.bool (!truthy v)), none)
  | name, v => (plainSet d name v, none)

theorem dictGet_dictSet (d : AttrState) (k : String) (v : AVal) (k2 : String) :
    dictGet (dictSet d k v) k2 = if k = k2 then some v else dictGet d k2 := by
  induction d with
  | nil =>
    simp only [dictSet, dictGet]
  | cons p rest ih =>
    obtain ⟨k3, v3⟩ := p
    by_cases h3 : k3 = k
    · have hset : dictSet ((k3, v3) :: rest) k v = (k3, v) :: rest := by
        simp [dictSet, h3]
      rw [hset]
      by_cases h2 : k3 = k2
      · have e1 : dictGet ((k3, v) :: rest) k2 = some v := by simp [dictGet, h2]
        have e2 : dictGet ((k3, v3) :: rest) k2 = some v3 := by simp [dictGet, h2]
        rw [e1, if_pos (by rw [← h3]; exact h2)]
      · have e1 : dictGet ((k3, v) :: rest) k2 = dictGet rest k2 := by simp [dictGet, h2]
        have e2 : dictGet ((k3, v3) :: rest) k2 = dictGet rest k2 := by simp [dictGet, h2]
        rw [e1, e2, if_neg (by rw [← h3]; exact h2)]
    · have hset : dictSet ((k3, v3) :: rest) k v = (k3, v3) :: dictSet rest k v := by
        simp [dictSet, h3]
      rw [hset]
      by_cases h2 : k3 = k2
      · have e1 : dictGet ((k3, v3) :: dictSet rest k v) k2 = some v3 := by
          simp [dictGet, h2]
        have e2 : dictGet ((k3, v3) :: rest) k2 = some v3 := by simp [dictGet, h2]
        have hkk2 : k ≠ k2 := by rw [← h2]; exact fun h => h3 h.symm
        rw [e1, e2, if_neg hkk2]
      · have e1 : dictGet ((k3, v3) :: dictSet rest k v) k2 = dictGet (dictSet rest k v) k2 := by
          simp [dictGet, h2]
        have e2 : dictGet ((k3, v3) :: rest) k2 = dictGet rest k2 := by simp [dictGet, h2]
        rw [e1, e2, ih]

theorem plainSet_get_self (d : AttrState) (n : String) (v : AVal) :
    dictGet (plainSet d n v) n = some v := by
  unfold plainSet
  split <;> rw [dictGet_dictSet, if_pos rfl]

theorem plainSet_get_other (d : AttrState) (n : String) (v : AVal) (k : String)
    (hk1 : n ≠ k) (hk2 : k ≠ "dirty") :
    dictGet (plainSet d n v) k = dictGet d k := by
  unfold plainSet
  split
  · rw [dictGet_dictSet, if_neg hk1, dictGet_dictSet, if_neg (fun h => hk2 h.symm)]
  · rw [dictGet_dictSet, if_neg hk1]

theorem plainSet_get_dirty (d : AttrState) (n : String) (v : AVal) (hn : n ≠ "dirty") :
    dictGet (plainSet d n v) "dirty" =
      if dictGet d n ≠ some v then some (.bool true) else dictGet d "dirty" := by
  unfold plainSet
  by_cases hc : dictGet d n ≠ some v
  · rw [if_pos ⟨hn, hc⟩, if_pos hc, dictGet_dictSet, if_neg hn, dictGet_dictSet, if_pos rfl]
  · rw [if_neg (by tauto), if_neg hc, dictGet_dictSet, if_neg hn]

/-- When the instance dict already binds `n` to `v`, the generic store is a
no-op at every key. -/
theorem plainSet_noop (d : AttrState) (n : String) (v : AVal)
    (hc : dictGet d n = some v) (k : String) :
    dictGet (plainSet d n v) k = dictGet d k := by
  unfold plainSet
  rw [if_neg (by tauto), dictGet_dictSet]
  by_cases hk : n = k
  · subst hk; rw [if_pos rfl, hc]
  · rw [if_neg hk]

/-- After a write, the dirty flag either kept its input value or is `True`;
it never changed *and* a non-dirty key changed; and a dirty flag that was
already `True` stays `True`.  This composes along the write chains of
`__setattr__`. -/
def DirtyGood (d d2 : AttrState) : Prop :=
  ((∃ k, k ≠ "dirty" ∧ dictGet d2 k ≠ dictGet d k) →
    dictGet d2 "dirty" = some (.bool true)) ∧
  (dictGet d "dirty" = some (.bool true) → dictGet d2 "dirty" = some (.bool true)) ∧
  (dictGet d2 "dirty" = dictGet d "dirty" ∨ dictGet d2 "dirty" = some (.bool true))

theorem dirtyGood_refl (d : AttrState) : DirtyGood d d :=
  ⟨fun ⟨k, _, hk⟩ => absurd rfl hk, fun h => h, Or.inl rfl⟩

theorem dirtyGood_trans (d d1 d2 : AttrState)
    (g1 : DirtyGood d d1) (g2 : DirtyGood d1 d2) : DirtyGood d d2 := by
  obtain ⟨a1, b1, c1⟩ := g1
  obtain ⟨a2, b2, c2⟩ := g2
  refine ⟨?_, fun h => b2 (b1 h), ?_⟩
  · rintro ⟨k, hk, hne⟩
    by_cases h01 : dictGet d1 k = dictGet d k
    · exact a2 ⟨k, hk, fun h12 => hne (h12.trans h01)⟩
    · exact b2 (a1 ⟨k, hk, h01⟩)
  · rcases c2 with h2 | h2
    · rcases c1 with h1 | h1
      · exact Or.inl (h2.trans h1)
      · exact Or.inr (h2.trans h1)
    · exact Or.inr h2

theorem plainSet_dirtyGood (d : AttrState) (n : String) (v : AVal)
    (hn : n ≠ "dirty") : DirtyGood d (plainSet d n v) := by
  by_cases hc : dictGet d n = some v
  · have hall := plainSet_noop d n v hc
    exact ⟨fun ⟨k, _, hk⟩ => absurd (hall k) hk, fun h => (hall "dirty").trans h,
      Or.inl (hall "dirty")⟩
  · have hd : dictGet (plainSet d n v) "dirty" = some (.bool true) := by
      rw [plainSet_get_dirty d n v hn, if_pos hc]
    exact ⟨fun _ => hd, fun _ => hd, Or.inr hd⟩

/-- Writes with a name that matches none of the special branches (margin or
padding with a tuple, `effect`, `enabled`) reduce to the generic store. -/
theorem setattrW_generic (d : AttrState) (varname : String) (value : AVal)
    (hm : ¬ (varname = "margin" ∧ value.isTup = true))
    (hp : ¬ (varname = "padding" ∧ value.isTup = true))
    (he : varname ≠ "effect") (hen : varname ≠ "enabled") :
    setattrW d varname value = (plainSet d varname value, none) := by
  unfold setattrW
  split
  · exact absurd ⟨rfl, rfl⟩ hm
  · exact absurd ⟨rfl, rfl⟩ hp
  · exact absurd rfl he
  · exact absurd rfl hen
  · rfl

theorem dirtyGood_step (d d1 : AttrState) (n : String) (v : AVal)
    (hg : DirtyGood d d1) (hn : n ≠ "dirty") : DirtyGood d (plainSet d1 n v) :=
  dirtyGood_trans _ _ _ hg (plainSet_dirtyGood d1 n v hn)

theorem setattrW_dirtyGood (d : AttrState) (varname : String) (value : AVal)
    (hn : varname ≠ "dirty") : DirtyGood d (setattrW d varname value).1 := by
  have step := dirtyGood_step
  have base := fun n v h => dirtyGood_step d d n v (dirtyGood_refl d) h
  unfold setattrW
  split
  · -- margin, tuple
    split
    · exact step _ _ "margin" _ (step _ _ "margin_right" _ (step _ _ "margin_left" _
        (step _ _ "margin_bottom" _ (base "margin_top" _ (by decide)) (by decide))
        (by decide)) (by decide)) (by decide)
    · split
      · exact step _ _ "margin" _ (step _ _ "margin_left" _ (step _ _ "margin_bottom" _
          (step _ _ "margin_right" _ (base "margin_top" _ (by decide)) (by decide))
          (by decide)) (by decide)) (by decide)
      · exact dirtyGood_refl d
  · -- padding, tuple
    split
    · exact step _ _ "padding" _ (step _ _ "padding_right" _ (step _ _ "padding_left" _
        (step _ _ "padding_bottom" _ (base "padding_top" _ (by decide)) (by decide))
        (by decide)) (by decide)) (by decide)
    · split
      · exact step _ _ "padding" _ (step _ _ "padding_left" _ (step _ _ "padding_bottom" _
          (step _ _ "padding_right" _ (base "padding_top" _ (by decide)) (by decide))
          (by decide)) (by decide)) (by decide)
      · exact dirtyGood_refl d
  · -- effect
    split
    · exact step _ _ "effect" _ (base "effect_func" _ (by decide)) (by decide)
    · exact dirtyGood_refl d
  · -- enabled
    exact base "disabled" _ (by decide)
  · -- generic
    exact base varname value hn

/-- C5 (amended): for a successful attribute write, `dirty` becomes `True`
whenever the write changed the stored value of any non-`dirty` key (in
particular whenever it changed an observable value), and otherwise keeps its
previous value; writing `dirty` itself just stores the given value; and a
generic write of a value already bound to that name in the *instance dict*
changes nothing.  (First writes of a value equal to the inherited class
default do set `dirty`: the code checks the instance dict, not the
observable value.) -/
theorem c5_dirty_semantics (d : AttrState) (varname : String) (value : AVal)
    (d2 : AttrState) (err : Option String)
    (h : setattrW d varname value = (d2, err)) :
    (varname ≠ "dirty" →
      ((∃ k, k ≠ "dirty" ∧ dictGet d2 k ≠ dictGet d k) →
        dictGet d2 "dirty" = some (AVal.bool true)) ∧
      (dictGet d2 "dirty" = dictGet d "dirty" ∨
        dictGet d2 "dirty" = some (AVal.bool true))) ∧
    (varname = "dirty" →
      dictGet d2 "dirty" = some value ∧
        ∀ k, k ≠ "dirty" → dictGet d2 k = dictGet d k) ∧
    (¬ (varname = "margin" ∧ value.isTup = true) →
      ¬ (varname = "padding" ∧ value.isTup = true) →
      varname ≠ "effect" → varname ≠ "enabled" →
      dictGet d varname = some value →
      ∀ k, dictGet d2 k = dictGet d k) := by
  refine ⟨?_, ?_, ?_⟩
  · intro hn
    have hg := setattrW_dirtyGood d varname value hn
    rw [h] at hg
    exact ⟨hg.1, hg.2.2⟩
  · intro hv
    subst hv
    have hgen := setattrW_generic d "dirty" value
      (by rintro ⟨h1, -⟩; exact absurd h1 (by decide))
      (by rintro ⟨h1, -⟩; exact absurd h1 (by decide))
      (by decide) (by decide)
    rw [hgen] at h
    cases h
    constructor
    · unfold plainSet
      rw [if_neg (by simp), dictGet_dictSet, if_pos rfl]
    · intro k hk
      unfold plainSet
      rw [if_neg (by simp), dictGet_dictSet, if_neg (fun hh => hk hh.symm)]
  · intro hm hp he hen hc
    have hgen := setattrW_generic d varname value hm hp he hen
    rw [hgen] at h
    cases h
    exact plainSet_noop d varname value hc

/-- C5 counterexample: a widget whose instance dict holds `dirty = False`
(and the `effect_func` that `__init__` stores).  Its observable `margin` is
the class default 10; assigning `margin = 10` leaves every observable value
unchanged yet sets `dirty`, because `"margin"` was not in the instance dict. -/
theorem c5_counterexample :
    getattrW [("dirty", AVal.bool false), ("effect_func", AVal.func "no_effect")]
      "margin" = AVal.int 10 ∧
    setattrW [("dirty", AVal.bool false), ("effect_func", AVal.func "no_effect")]
      "margin" (AVal.int 10) =
      ([("dirty", AVal.bool true), ("effect_func", AVal.func "no_effect"),
        ("margin", AVal.int 10)], none) ∧
    getattrW [("dirty", AVal.bool true), ("effect_func", AVal.func "no_effect"),
        ("margin", AVal.int 10)] "margin" = AVal.int 10 := by
  refine ⟨?_, ?_, ?_⟩ <;>
    simp [getattrW, setattrW, plainSet, dictGet, dictSet, classDefault]

theorem c5_witness :
    setattrW [("width", AVal.int 3)] "width" (AVal.int 7) =
      ([("width", AVal.int 7), ("dirty", AVal.bool true)], none) ∧
    ((∃ k, k ≠ "dirty" ∧
        dictGet [("width", AVal.int 7), ("dirty", AVal.bool true)] k ≠
          dictGet [("width", AVal.int 3)] k) →
      dictGet [("width", AVal.int 7), ("dirty", AVal.bool true)] "dirty" =
        some (AVal.bool true)) := by
  have hset : setattrW [("width", AVal.int 3)] "width" (AVal.int 7) =
      ([("width", AVal.int 7), ("dirty", AVal.bool true)], none) := by
    simp [setattrW, plainSet, dictGet, dictSet]
  refine ⟨hset, ?_⟩
  exact (c5_dirty_semantics [("width", AVal.int 3)] "width" (AVal.int 7)
    [("width", AVal.int 7), ("dirty", AVal.bool true)] none hset
    |>.1 (by simp)).1

theorem getattrW_hit (d : AttrState) (name : String) (v : AVal)
    (h : dictGet d name = some v) : getattrW d name = v := by
  unfold getattrW
  rw [h]

theorem getattrW_class (d : AttrState) (name : String) (v : AVal)
    (hd : dictGet d name = none) (hc : classDefault name = some v) :
    getattrW d name = v := by
  unfold getattrW
  rw [hd, hc]

theorem getattrW_margin_side (d : AttrState) (side : String)
    (hs : side = "margin_top" ∨ side = "margin_right" ∨
      side = "margin_bottom" ∨ side = "margin_left")
    (hd : dictGet d side = none) (w : AVal) (hm : dictGet d "margin" = some w) :
    getattrW d side = w := by
  rcases hs with rfl | rfl | rfl | rfl <;>
  · unfold getattrW
    rw [hd, hm]
    simp [classDefault]

theorem getattrW_padding_side (d : AttrState) (side : String)
    (hs : side = "padding_top" ∨ side = "padding_right" ∨
      side = "padding_bottom" ∨ side = "padding_left")
    (hd : dictGet d side = none) (w : AVal) (hm : dictGet d "padding" = some w) :
    getattrW d side = w := by
  rcases hs with rfl | rfl | rfl | rfl <;>
  · unfold getattrW
    rw [hd, hm]
    simp [classDefault]

/-- After the 2-tuple margin branch the four sides and `"margin"` are stored. -/
theorem margin_two_tuple_state (d : AttrState) (a b : ℤ) :
    setattrW d "margin" (AVal.tup [a, b]) =
      (plainSet (plainSet (plainSet (plainSet (plainSet d
        "margin_top" (.int a)) "margin_bottom" (.int a))
        "margin_left" (.int b)) "margin_right" (.int b)) "margin" (.tup [a, b]), none) := rfl

theorem margin_four_tuple_state (d : AttrState) (t r bo lf : ℤ) :
    setattrW d "margin" (AVal.tup [t, r, bo, lf]) =
      (plainSet (plainSet (plainSet (plainSet (plainSet d
        "margin_top" (.int t)) "margin_right" (.int r))
        "margin_bottom" (.int bo)) "margin_left" (.int lf)) "margin" (.tup [t, r, bo, lf]),
        none) := rfl

theorem padding_two_tuple_state (d : AttrState) (a b : ℤ) :
    setattrW d "padding" (AVal.tup [a, b]) =
      (plainSet (plainSet (plainSet (plainSet (plainSet d
        "padding_top" (.int a)) "padding_bottom" (.int a))
        "padding_left" (.int b)) "padding_right" (.int b)) "padding" (.tup [a, b]), none) := rfl

theorem padding_four_tuple_state (d : AttrState) (t r bo lf : ℤ) :
    setattrW d "padding" (AVal.tup [t, r, bo, lf]) =
      (plainSet (plainSet (plainSet (plainSet (plainSet d
        "padding_top" (.int t)) "padding_right" (.int r))
        "padding_bottom" (.int bo)) "padding_left" (.int lf)) "padding" (.tup [t, r, bo, lf]),
        none) := rfl

theorem margin_arity_raises (d : AttrState) (l : List ℤ)
    (h2 : l.length ≠ 2) (h4 : l.length ≠ 4) :
    setattrW d "margin" (AVal.tup l) = (d, some "Invalid margin value") := by
  have hred : setattrW d "margin" (AVal.tup l) =
      if l.length = 2 then
        (plainSet (plainSet (plainSet (plainSet (plainSet d
          "margin_top" (.int (l.getD 0 0))) "margin_bottom" (.int (l.getD 0 0)))
          "margin_left" (.int (l.getD 1 0))) "margin_right" (.int (l.getD 1 0)))
          "margin" (.tup l), none)
      else if l.length = 4 then
        (plainSet (plainSet (plainSet (plainSet (plainSet d
          "margin_top" (.int (l.getD 0 0))) "margin_right" (.int (l.getD 1 0)))
          "margin_bottom" (.int (l.getD 2 0))) "margin_left" (.int (l.getD 3 0)))
          "margin" (.tup l), none)
      else (d, some "Invalid margin value") := rfl
  rw [hred, if_neg h2, if_neg h4]

theorem padding_arity_raises (d : AttrState) (l : List ℤ)
    (h2 : l.length ≠ 2) (h4 : l.length ≠ 4) :
    setattrW d "padding" (AVal.tup l) = (d, some "Invalid padding value") := by
  have hred : setattrW d "padding" (AVal.tup l) =
      if l.length = 2 then
        (plainSet (plainSet (plainSet (plainSet (plainSet d
          "padding_top" (.int (l.getD 0 0))) "padding_bottom" (.int (l.getD 0 0)))
          "padding_left" (.int (l.getD 1 0))) "padding_right" (.int (l.getD 1 0)))
          "padding" (.tup l), none)
      else if l.length = 4 then
        (plainSet (plainSet (plainSet (plainSet (plainSet d
          "padding_top" (.int (l.getD 0 0))) "padding_right" (.int (l.getD 1 0)))
          "padding_bottom" (.int (l.getD 2 0))) "padding_left" (.int (l.getD 3 0)))
          "padding" (.tup l), none)
      else (d, some "Invalid padding value") := rfl
  rw [hred, if_neg h2, if_neg h4]

/-- C6 (amended): tuple writes of margin (and padding) set the named sides
explicitly and a scalar write sets the fallback scalar, so each side WITHOUT
a stored per-side instance value reads the scalar (a stored per-side value
keeps precedence over a later scalar write); any tuple arity other than 2 or
4 raises `Invalid margin value` / `Invalid padding value` with the instance
dict (hence every side and the dirty flag) left exactly as before. -/
theorem c6_margin_padding_contract :
    (∀ (d : AttrState) (m : ℤ),
      (setattrW d "margin" (AVal.int m)).2 = none ∧
      (∀ side, (side = "margin_top" ∨ side = "margin_right" ∨
          side = "margin_bottom" ∨ side = "margin_left") →
        dictGet d side = none →
        getattrW (setattrW d "margin" (AVal.int m)).1 side = AVal.int m)) ∧
    (∀ (d : AttrState) (a b : ℤ),
      (setattrW d "margin" (AVal.tup [a, b])).2 = none ∧
      getattrW (setattrW d "margin" (AVal.tup [a, b])).1 "margin_top" = AVal.int a ∧
      getattrW (setattrW d "margin" (AVal.tup [a, b])).1 "margin_bottom" = AVal.int a ∧
      getattrW (setattrW d "margin" (AVal.tup [a, b])).1 "margin_left" = AVal.int b ∧
      getattrW (setattrW d "margin" (AVal.tup [a, b])).1 "margin_right" = AVal.int b) ∧
    (∀ (d : AttrState) (t r bo lf : ℤ),
      (setattrW d "margin" (AVal.tup [t, r, bo, lf])).2 = none ∧
      getattrW (setattrW d "margin" (AVal.tup [t, r, bo, lf])).1 "margin_top" = AVal.int t ∧
      getattrW (setattrW d "margin" (AVal.tup [t, r, bo, lf])).1 "margin_right" = AVal.int r ∧
      getattrW (setattrW d "margin" (AVal.tup [t, r, bo, lf])).1 "margin_bottom" = AVal.int bo ∧
      getattrW (setattrW d "margin" (AVal.tup [t, r, bo, lf])).1 "margin_left" = AVal.int lf) ∧
    (∀ (d : AttrState) (l : List ℤ), l.length ≠ 2 → l.length ≠ 4 →
      setattrW d "margin" (AVal.tup l) = (d, some "Invalid margin value")) ∧
    (∀ (d : AttrState) (m : ℤ),
      (setattrW d "padding" (AVal.int m)).2 = none ∧
      (∀ side, (side = "padding_top" ∨ side = "padding_right" ∨
          side = "padding_bottom" ∨ side = "padding_left") →
        dictGet d side = none →
        getattrW (setattrW d "padding" (AVal.int m)).1 side = AVal.int m)) ∧
    (∀ (d : AttrState) (a b : ℤ),
      (setattrW d "padding" (AVal.tup [a, b])).2 = none ∧
      getattrW (setattrW d "padding" (AVal.tup [a, b])).1 "padding_top" = AVal.int a ∧
      getattrW (setattrW d "padding" (AVal.tup [a, b])).1 "padding_bottom" = AVal.int a ∧
      getattrW (setattrW d "padding" (AVal.tup [a, b])).1 "padding_left" = AVal.int b ∧
      getattrW (setattrW d "padding" (AVal.tup [a, b])).1 "padding_right" = AVal.int b) ∧
    (∀ (d : AttrState) (t r bo lf : ℤ),
      (setattrW d "padding" (AVal.tup [t, r, bo, lf])).2 = none ∧
      getattrW (setattrW d "padding" (AVal.tup [t, r, bo, lf])).1 "padding_top" = AVal.int t ∧
      getattrW (setattrW d "padding" (AVal.tup [t, r, bo, lf])).1 "padding_right" = AVal.int r ∧
      getattrW (setattrW d "padding" (AVal.tup [t, r, bo, lf])).1 "padding_bottom" = AVal.int bo ∧
      getattrW (setattrW d "padding" (AVal.tup [t, r, bo, lf])).1 "padding_left" = AVal.int lf) ∧
    (∀ (d : AttrState) (l : List ℤ), l.length ≠ 2 → l.length ≠ 4 →
      setattrW d "padding" (AVal.tup l) = (d, some "Invalid padding value")) := by
  refine ⟨?_, ?_, ?_, margin_arity_raises, ?_, ?_, ?_, padding_arity_raises⟩
  · intro d m
    have hred : setattrW d "margin" (AVal.int m) = (plainSet d "margin" (AVal.int m), none) := rfl
    refine ⟨by rw [hred], ?_⟩
    intro side hs hd
    rw [hred]
    refine getattrW_margin_side _ side hs ?_ (AVal.int m) (plainSet_get_self _ _ _)
    rw [plainSet_get_other _ _ _ side
      (by rcases hs with rfl | rfl | rfl | rfl <;> decide)
      (by rcases hs with rfl | rfl | rfl | rfl <;> decide)]
    exact hd
  · intro d a b
    rw [margin_two_tuple_state]
    refine ⟨rfl, ?_, ?_, ?_, ?_⟩ <;>
    · refine getattrW_hit _ _ _ ?_
      rw [plainSet_get_other _ _ _ _ (by decide) (by decide)]
      repeat rw [plainSet_get_other _ _ _ _ (by decide) (by decide)]
      exact plainSet_get_self _ _ _
  · intro d t r bo lf
    rw [margin_four_tuple_state]
    refine ⟨rfl, ?_, ?_, ?_, ?_⟩ <;>
    · refine getattrW_hit _ _ _ ?_
      rw [plainSet_get_other _ _ _ _ (by decide) (by decide)]
      repeat rw [plainSet_get_other _ _ _ _ (by decide) (by decide)]
      exact plainSet_get_self _ _ _
  · intro d m
    have hred : setattrW d "padding" (AVal.int m) = (plainSet d "padding" (AVal.int m), none) := rfl
    refine ⟨by rw [hred], ?_⟩
    intro side hs hd
    rw [hred]
    refine getattrW_padding_side _ side hs ?_ (AVal.int m) (plainSet_get_self _ _ _)
    rw [plainSet_get_other _ _ _ side
      (by rcases hs with rfl | rfl | rfl | rfl <;> decide)
      (by rcases hs with rfl | rfl | rfl | rfl <;> decide)]
    exact hd
  · intro d a b
    rw [padding_two_tuple_state]
    refine ⟨rfl, ?_, ?_, ?_, ?_⟩ <;>
    · refine getattrW_hit _ _ _ ?_
      rw [plainSet_get_other _ _ _ _ (by decide) (by decide)]
      repeat rw [plainSet_get_other _ _ _ _ (by decide) (by decide)]
      exact plainSet_get_self _ _ _
  · intro d t r bo lf
    rw [padding_four_tuple_state]
    refine ⟨rfl, ?_, ?_, ?_, ?_⟩ <;>
    · refine getattrW_hit _ _ _ ?_
      rw [plainSet_get_other _ _ _ _ (by decide) (by decide)]
      repeat rw [plainSet_get_other _ _ _ _ (by decide) (by decide)]
      exact plainSet_get_self _ _ _

/-- C6 counterexample: with a stored per-side override `margin_top = 99`, a
scalar write `margin = 5` succeeds but does NOT make all four sides equal:
the stored `margin_top` keeps precedence over the scalar fallback. -/
theorem c6_counterexample :
    (setattrW [("margin_top", AVal.int 99), ("dirty", AVal.bool false)]
      "margin" (AVal.int 5)).2 = none ∧
    getattrW (setattrW [("margin_top", AVal.int 99), ("dirty", AVal.bool false)]
      "margin" (AVal.int 5)).1 "margin_top" = AVal.int 99 ∧
    getattrW (setattrW [("margin_top", AVal.int 99), ("dirty", AVal.bool false)]
      "margin" (AVal.int 5)).1 "margin_right" = AVal.int 5 ∧
    AVal.int 99 ≠ AVal.int 5 := by
  refine ⟨?_, ?_, ?_, by simp⟩ <;>
    simp [setattrW, plainSet, dictGet, dictSet, getattrW, classDefault]

theorem c6_witness :
    getattrW (setattrW [] "margin" (AVal.tup [5, 10, 20, 10])).1 "margin_top" = AVal.int 5 ∧
    getattrW (setattrW [] "margin" (AVal.tup [5, 10, 20, 10])).1 "margin_right" = AVal.int 10 ∧
    getattrW (setattrW [] "margin" (AVal.tup [5, 10, 20, 10])).1 "margin_bottom" = AVal.int 20 ∧
    getattrW (setattrW [] "margin" (AVal.tup [5, 10, 20, 10])).1 "margin_left" = AVal.int 10 ∧
    ((5 : ℤ) :: [10, 20] ≠ []) ∧
    setattrW [] "margin" (AVal.tup [5, 10, 20]) = ([], some "Invalid margin value") := by
  have h4 := c6_margin_padding_contract.2.2.1 [] 5 10 20 10
  refine ⟨h4.2.1, h4.2.2.1, h4.2.2.2.1, h4.2.2.2.2, by simp, ?_⟩
  exact c6_margin_padding_contract.2.2.2.1 [] [5, 10, 20] (by simp) (by simp)

/-! ## Widget construction (`pygame_dialog.py` lines 498-501) -/

/-- The `setattr` loop of `Widget.__init__`: each keyword option is applied
in order; a raised exception propagates immediately. -/
def applyKwargs : AttrState → List (String × AVal) → AttrState × Option String
  | d, [] => (d, none)
  | d, (k, v) :: rest =>
    match setattrW d k v with
    | (d2, none) => applyKwargs d2 rest
    | (d2, some e) => (d2, some e)

/-- `Widget.__init__(kwargs)`: apply every keyword option via `setattr`,
then, when no `effect` option set one, default `effect_func` to the method
named by `self.effect`. -/
def widgetInit (kwargs : List (String × AVal)) : AttrState × Option String :=
  match applyKwargs [] kwargs with
  | (d, some e) => (d, some e)
  | (d, none) =>
    if getattrW d "effect_func" = .pynone then
      match getattrW d "effect" with
      | .str s => (plainSet d "effect_func" (getattrW d s), none)
      | _ => (d, some "TypeError: attribute name must be string")
    else (d, none)

/-- C9 (amended): a configuration option whose name is not one of the
specially handled attributes is NOT rejected: `Widget.__init__` just stores
it in the instance dict via `setattr` and construction succeeds, with no
validation of option names. -/
theorem c9_unrecognized_option_accepted (name : String) (v : AVal)
    (h1 : ¬ (name = "margin" ∧ v.isTup = true))
    (h2 : ¬ (name = "padding" ∧ v.isTup = true))
    (h3 : name ≠ "effect") (h4 : name ≠ "enabled")
    (h5 : name ≠ "dirty") (h6 : name ≠ "effect_func") :
    (widgetInit [(name, v)]).2 = none ∧
    dictGet (widgetInit [(name, v)]).1 name = some v := by
  have hset := setattrW_generic [] name v h1 h2 h3 h4
  have happ : applyKwargs [] [(name, v)] = (plainSet [] name v, none) := by
    unfold applyKwargs
    rw [hset]
    rfl
  have hef : getattrW (plainSet [] name v) "effect_func" = .pynone := by
    refine getattrW_class _ _ _ ?_ (by simp [classDefault])
    rw [plainSet_get_other _ name v "effect_func" h6 (by decide)]
    rfl
  have heff : getattrW (plainSet [] name v) "effect" = .str "no_effect" := by
    refine getattrW_class _ _ _ ?_ (by simp [classDefault])
    rw [plainSet_get_other _ name v "effect" h3 (by decide)]
    rfl
  have hwi : widgetInit [(name, v)] =
      (plainSet (plainSet [] name v) "effect_func"
        (getattrW (plainSet [] name v) "no_effect"), none) := by
    unfold widgetInit
    rw [happ]
    simp only []
    rw [if_pos hef, heff]
  rw [hwi]
  refine ⟨rfl, ?_⟩
  rw [plainSet_get_other _ "effect_func" _ name (fun he => h6 he.symm) h5]
  exact plainSet_get_self _ _ _

/-- C9 counterexample: the unrecognized option `bogus` is silently stored
and construction succeeds (no error), contradicting the claim that
construction fails on unrecognized option names. -/
theorem c9_counterexample :
    (widgetInit [("bogus", AVal.int 5)]).2 = none ∧
    dictGet (widgetInit [("bogus", AVal.int 5)]).1 "bogus" = some (AVal.int 5) := by
  constructor <;>
    simp [widgetInit, applyKwargs, setattrW, plainSet, dictGet, dictSet, getattrW, classDefault]

theorem c9_witness :
    (widgetInit [("colour", AVal.tup [1, 2, 3])]).2 = none ∧
    dictGet (widgetInit [("colour", AVal.tup [1, 2, 3])]).1 "colour" =
      some (AVal.tup [1, 2, 3]) := by
  exact c9_unrecognized_option_accepted "colour" (AVal.tup [1, 2, 3])
    (by rintro ⟨hc, -⟩; exact absurd hc (by decide))
    (by rintro ⟨hc, -⟩; exact absurd hc (by decide))
    (by decide) (by decide) (by decide) (by decide)

/-! ## Layout engine (`pygame_dialog.py` lines 30-463, 725-761)

The element tree for the three-pass layout protocol.  Leaves are
`TextWidget`-style widgets: their four margins and four paddings are stored
as the observable per-side values (layout code only reads them), `width` and
`height` are the optional explicit sizes (`None` until `get_initial_rect`
pins them), and `measuredW`/`measuredH` stand for the external renderer's
`font.size(text)` result.  Containers carry the mutable state the source
keeps on the instance: the `Rect` plus `__internal_margins` for linear
layouts, and the cached counts/width/height/margin arrays for grids.
pygame `Rect` coordinates are integers. -/

structure PRect where
  left : ℤ
  top : ℤ
  width : ℤ
  height : ℤ
deriving DecidableEq, Repr, Inhabited

structure WData where
  margin_top : ℤ
  margin_right : ℤ
  margin_bottom : ℤ
  margin_left : ℤ
  padding_top : ℤ
  padding_right : ℤ
  padding_bottom : ℤ
  padding_left : ℤ
  width : Option ℤ
  height : Option ℤ
  measuredW : ℤ
  measuredH : ℤ
  rect : PRect
deriving DecidableEq, Repr

structure LinState where
  rect : PRect
  internalMargins : ℤ
deriving DecidableEq, Repr

structure GridState where
  rect : PRect
  rowCount : ℕ
  columnCount : ℕ
  columnWidths : List ℤ
  rowHeights : List ℤ
  columnMargins : List ℤ
  rowMargins : List ℤ
deriving DecidableEq, Repr

inductive Element where
  | widget (w : WData)
  | horiz (st : LinState) (elements : List Element)
  | vert (st : LinState) (elements : List Element)
  | grid (st : GridState) (rows : List (List Element))
deriving Repr

def Element.rect : Element → PRect
  | .widget w => w.rect
  | .horiz st _ => st.rect
  | .vert st _ => st.rect
  | .grid st _ => st.rect

def Element.withRect : Element → PRect → Element
  | .widget w, r => .widget { w with rect := r }
  | .horiz st els, r => .horiz { st with rect := r } els
  | .vert st els, r => .vert { st with rect := r } els
  | .grid st rows, r => .grid { st with rect := r } rows

def Element.isLayout : Element → Bool
  | .widget _ => false
  | _ => true

/- Node count of a tree; the payloads (whose `sizeOf` varies with the
numeric values the passes rewrite) do not contribute, so this is the
termination measure for the passes that recurse into rect-modified nodes. -/
mutual
def esize : Element → ℕ
  | .widget _ => 1
  | .horiz _ els => 1 + esizeList els
  | .vert _ els => 1 + esizeList els
  | .grid _ rows => 1 + esizeRows rows

def esizeList : List Element → ℕ
  | [] => 0
  | e :: rest => esize e + esizeList rest + 1

def esizeRows : List (List Element) → ℕ
  | [] => 0
  | row :: rest => esizeList row + esizeRows rest + 1
end

theorem esize_withRect (e : Element) (r : PRect) : esize (e.withRect r) = esize e := by
  cases e <;> rfl

/- Erase all measure-written state (every rect and all cached container
state), keeping what `get_initial_rect` reads: margins, paddings, the
width/height options and the measured text sizes. -/
mutual
def eraseEl : Element → Element
  | .widget w => .widget { w with rect := ⟨0, 0, 0, 0⟩ }
  | .horiz _ els => .horiz ⟨⟨0, 0, 0, 0⟩, 0⟩ (eraseList els)
  | .vert _ els => .vert ⟨⟨0, 0, 0, 0⟩, 0⟩ (eraseList els)
  | .grid _ rows => .grid ⟨⟨0, 0, 0, 0⟩, 0, 0, [], [], [], []⟩ (eraseRows rows)

def eraseList : List Element → List Element
  | [] => []
  | e :: rest => eraseEl e :: eraseList rest

def eraseRows : List (List Element) → List (List Element)
  | [] => []
  | row :: rest => eraseList row :: eraseRows rest
end

theorem eraseEl_withRect (e : Element) (r : PRect) : eraseEl (e.withRect r) = eraseEl e := by
  cases e <;> rfl

theorem eraseList_length (l : List Element) : (eraseList l).length = l.length := by
  induction l with
  | nil => rfl
  | cons e rest ih => simp [eraseList, ih]

/-! Derived margins.  `Widget.__getattr__` makes the per-side margins total
on widgets; on containers they are the `__getattr__` properties of
`HorizontalLayout`/`VerticalLayout` (lines 392-403, 451-462) and
`GridLayout` (lines 151-162), which read the contained elements (or, for
grids, the cached margin arrays).  `none` stands for the exception Python
would raise on the corresponding lookup (index error on an empty container,
type error from `max` over `None`). -/

mutual
def marginTop : Element → Option ℤ
  | .widget w => some w.margin_top
  | .horiz _ els => marginTopMaxL els
  | .vert _ els =>
    match els with
    | [] => none
    | e :: _ => marginTop e
  | .grid st _ => st.rowMargins.head?

def marginTopMaxL : List Element → Option ℤ
  | [] => none
  | [e] => marginTop e
  | e :: e2 :: rest =>
    match marginTop e, marginTopMaxL (e2 :: rest) with
    | some a, some b => some (max a b)
    | _, _ => none

def marginBottom : Element → Option ℤ
  | .widget w => some w.margin_bottom
  | .horiz _ els => marginBottomMaxL els
  | .vert _ els => lastMarginBottom els
  | .grid st _ => st.rowMargins.getLast?

def lastMarginBottom : List Element → Option ℤ
  | [] => none
  | [e] => marginBottom e
  | _ :: e2 :: rest => lastMarginBottom (e2 :: rest)

def marginBottomMaxL : List Element → Option ℤ
  | [] => none
  | [e] => marginBottom e
  | e :: e2 :: rest =>
    match marginBottom e, marginBottomMaxL (e2 :: rest) with
    | some a, some b => some (max a b)
    | _, _ => none

def marginLeft : Element → Option ℤ
  | .widget w => some w.margin_left
  | .horiz _ els =>
    match els with
    | [] => none
    | e :: _ => marginLeft e
  | .vert _ els => marginLeftMaxL els
  | .grid st _ => st.columnMargins.head?

def marginLeftMaxL : List Element → Option ℤ
  | [] => none
  | [e] => marginLeft e
  | e :: e2 :: rest =>
    match marginLeft e, marginLeftMaxL (e2 :: rest) with
    | some a, some b => some (max a b)
    | _, _ => none

def marginRight : Element → Option ℤ
  | .widget w => some w.margin_right
  | .horiz _ els => lastMarginRight els
  | .vert _ els => marginRightMaxL els
  | .grid st _ => st.columnMargins.getLast?

def lastMarginRight : List Element → Option ℤ
  | [] => none
  | [e] => marginRight e
  | _ :: e2 :: rest => lastMarginRight (e2 :: rest)

def marginRightMaxL : List Element → Option ℤ
  | [] => none
  | [e] => marginRight e
  | e :: e2 :: rest =>
    match marginRight e, marginRightMaxL (e2 :: rest) with
    | some a, some b => some (max a b)
    | _, _ => none
end

/-- `TextWidget.get_initial_rect` (lines 745-761): when `width`/`height` is
`None`, pin it to the measured text size (the `SysFont`/`font.size` call is
the external renderer); then the rect is the size padded on all four sides,
positioned at `(0, 0)`. -/
def measureWidget (wd : WData) : WData :=
  let w := match wd.width with
           | none => wd.measuredW
           | some v => v
  let h := match wd.height with
           | none => wd.measuredH
           | some v => v
  { wd with
    width := some w
    height := some h
    rect := ⟨0, 0, wd.padding_left + w + wd.padding_right,
      wd.padding_top + h + wd.padding_bottom⟩ }

/-- Maximum over optional values against a zero-initialized accumulator —
the source pattern `arr[i] = max(arr[i], ...)` on arrays initialized to 0;
`none` (a failed margin lookup) propagates. -/
def omaxAcc (acc : ℤ) : List (Option ℤ) → Option ℤ
  | [] => some acc
  | none :: _ => none
  | some x :: rest => omaxAcc (max acc x) rest

/-- Python `max` over a non-empty sequence of optional values: `none` on an
empty sequence (a `ValueError`) and when any entry is `none`. -/
def omaxNE : List (Option ℤ) → Option ℤ
  | [] => none
  | [o] => o
  | o :: rest =>
    match o, omaxNE rest with
    | some x, some y => some (max x y)
    | _, _ => none

def allSome : List (Option ℤ) → Option (List ℤ)
  | [] => some []
  | none :: _ => none
  | some x :: rest => (allSome rest).map (x :: ·)

/-- `self.column_count = max(len(row) for row in rows)` folded from 0. -/
def ccOf (rows : List (List Element)) : ℕ :=
  rows.foldl (fun m row => max m row.length) 0

/-- `column_widths[c]`: max width over the rows having a cell at column `c`
(`if c == len(row): continue` skips absent cells), starting from 0. -/
def columnWidthAt (rows : List (List Element)) (c : ℕ) : ℤ :=
  rows.foldl (fun acc row =>
    match row[c]? with
    | some cell => max acc cell.rect.width
    | none => acc) 0

/-- `row_heights[r]`: max height of the row's cells, starting from 0. -/
def rowHeightOf (row : List Element) : ℤ :=
  row.foldl (fun acc cell => max acc cell.rect.height) 0

/-- `column_margins[c]` for `c < column_count`: per row with a cell at `c`,
`row[0].margin_left` when `c == 0` else
`max(row[c-1].margin_right, row[c].margin_left)`, maxed from 0. -/
def colMarginAt (rows : List (List Element)) (c : ℕ) : Option ℤ :=
  if c = 0 then
    omaxAcc 0 ((rows.filterMap (fun row => row.head?)).map marginLeft)
  else
    omaxAcc 0 (rows.filterMap (fun row =>
      match row[c - 1]?, row[c]? with
      | some p, some q =>
        some (match marginRight p, marginLeft q with
              | some x, some y => some (max x y)
              | _, _ => none)
      | _, _ => none))

/-- `row_margins[0]`: max of the first row's cells' top margins, from 0. -/
def rowMarginFirst (row0 : List Element) : Option ℤ :=
  omaxAcc 0 (row0.map marginTop)

/-- `row_margins[r]` for `r ≥ 1`: per column present in both the row and the
previous row (`elif c < len(prev_row)`),
`max(prev_row[c].margin_bottom, row[c].margin_top)`, maxed from 0. -/
def rowMarginBetween (prevRow row : List Element) : Option ℤ :=
  omaxAcc 0 ((List.range (min row.length prevRow.length)).map (fun c =>
    match prevRow[c]?, row[c]? with
    | some p, some q =>
      match marginBottom p, marginTop q with
      | some x, some y => some (max x y)
      | _, _ => none
    | _, _ => none))

def rowMarginsBetween : List Element → List (List Element) → List (Option ℤ)
  | _, [] => []
  | prevRow, row :: rest => rowMarginBetween prevRow row :: rowMarginsBetween row rest

/-- `column_margins[column_count]` (lines 200-202): only rows of full length
contribute their last cell's right margin, maxed from 0. -/
def lastColumnMargin (cc : ℕ) (rows : List (List Element)) : Option ℤ :=
  omaxAcc 0 ((rows.filterMap (fun row =>
    if row.length = cc then row[cc - 1]? else none)).map marginRight)

/-- The pure tail of `GridLayout.get_initial_rect` over the already-measured
rows: the cached arrays and the minimal rect.  Errors are the source's
late exceptions: `rows[row_count - 1]` on an empty grid, `row[-1]` at line
202 when `column_count == 0`, and `max()` over an empty last row at line
205.  `measureRows` (phase 1) has already raised for any row more than one
cell shorter than `column_count`, so the `row[c]?` skips here coincide with
the source's `c == len(row)` guards. -/
def gridCompute (cc : ℕ) (rows : List (List Element)) : Except String GridState :=
  match rows.getLast? with
  | none => .error "list index out of range"
  | some lastRow =>
    if cc = 0 then .error "list index out of range"
    else
      let columnWidths := (List.range cc).map (columnWidthAt rows)
      let rowHeights := rows.map rowHeightOf
      let colMarginsMain := (List.range cc).map (colMarginAt rows)
      let rowMarginsMain :=
        match rows with
        | [] => []
        | row0 :: restRows => rowMarginFirst row0 :: rowMarginsBetween row0 restRows
      match allSome colMarginsMain, allSome rowMarginsMain with
      | some cm, some rm =>
        match lastColumnMargin cc rows with
        | none => .error "margin error"
        | some lastCM =>
          match omaxNE (lastRow.map marginBottom) with
          | none => .error "max() arg is an empty sequence"
          | some bottomRM =>
            let columnMargins := cm ++ [lastCM]
            let rowMargins := rm ++ [bottomRM]
            .ok {
              rect := ⟨0, 0,
                columnWidths.sum + ((columnMargins.drop 1).dropLast).sum,
                rowHeights.sum + ((rowMargins.drop 1).dropLast).sum⟩,
              rowCount := rows.length, columnCount := cc,
              columnWidths := columnWidths, rowHeights := rowHeights,
              columnMargins := columnMargins, rowMargins := rowMargins }
      | _, _ => .error "margin error"

/- `get_initial_rect` over the tree.  Linear layouts (lines 351-367 and
410-426) measure the first element, then accumulate: the cross axis is the
max of the measured extents, the main axis adds each next element's extent
plus the collapsed margin `max(prev margin, next margin)` — where, exactly
as in the source, `prev_elem` is never advanced and stays the FIRST element.
`__internal_margins` sums the collapsed margins.  Grids (lines 165-208)
measure their cells in row-major order — a row more than one cell shorter
than `column_count` makes `row[c]` fail at `c == len(row) + 1`, since the
`if c == len(row): continue` guard skips only one column — and then compute
the cached arrays (`gridCompute`). -/
mutual
def measureEl : Element → Except String Element
  | .widget w => .ok (.widget (measureWidget w))
  | .horiz _ els =>
    match els with
    | [] => .error "Layout contains no elements"
    | first :: rest =>
      match measureEl first with
      | .error e => .error e
      | .ok first2 =>
        match measureHorizRest first2 first2.rect.height first2.rect.width 0 rest with
        | .error e => .error e
        | .ok (rest2, h, w, im) =>
          .ok (.horiz ⟨⟨0, 0, w, h⟩, im⟩ (first2 :: rest2))
  | .vert _ els =>
    match els with
    | [] => .error "Layout contains no elements"
    | first :: rest =>
      match measureEl first with
      | .error e => .error e
      | .ok first2 =>
        match measureVertRest first2 first2.rect.width first2.rect.height 0 rest with
        | .error e => .error e
        | .ok (rest2, w, h, im) =>
          .ok (.vert ⟨⟨0, 0, w, h⟩, im⟩ (first2 :: rest2))
  | .grid _ rows =>
    match measureRows (ccOf rows) rows with
    | .error e => .error e
    | .ok rows2 =>
      match gridCompute (ccOf rows) rows2 with
      | .error e => .error e
      | .ok st2 => .ok (.grid st2 rows2)

def measureVertRest (prev : Element) (w h im : ℤ) :
    List Element → Except String (List Element × ℤ × ℤ × ℤ)
  | [] => .ok ([], w, h, im)
  | next :: rest =>
    match measureEl next with
    | .error e => .error e
    | .ok next2 =>
      match marginBottom prev, marginTop next2 with
      | some mb, some mt =>
        let margin := max mb mt
        match measureVertRest prev (max w next2.rect.width)
            (h + margin + next2.rect.height) (im + margin) rest with
        | .error e => .error e
        | .ok (rest2, w2, h2, im2) => .ok (next2 :: rest2, w2, h2, im2)
      | _, _ => .error "margin error"

def measureHorizRest (prev : Element) (h w im : ℤ) :
    List Element → Except String (List Element × ℤ × ℤ × ℤ)
  | [] => .ok ([], h, w, im)
  | next :: rest =>
    match measureEl next with
    | .error e => .error e
    | .ok next2 =>
      match marginRight prev, marginLeft next2 with
      | some mr, some ml =>
        let margin := max mr ml
        match measureHorizRest prev (max h next2.rect.height)
            (w + margin + next2.rect.width) (im + margin) rest with
        | .error e => .error e
        | .ok (rest2, h2, w2, im2) => .ok (next2 :: rest2, h2, w2, im2)
      | _, _ => .error "margin error"

def measureCells : List Element → Except String (List Element)
  | [] => .ok []
  | c :: rest =>
    match measureEl c with
    | .error e => .error e
    | .ok c2 =>
      match measureCells rest with
      | .error e => .error e
      | .ok rest2 => .ok (c2 :: rest2)

def measureRows (cc : ℕ) : List (List Element) → Except String (List (List Element))
  | [] => .ok []
  | row :: rest =>
    match measureCells row with
    | .error e => .error e
    | .ok row2 =>
      if cc ≤ row.length + 1 then
        match measureRows cc rest with
        | .error e => .error e
        | .ok rest2 => .ok (row2 :: rest2)
      else .error "list index out of range"
end

/-- Python `round` (banker's rounding, half to even) on the exact rational
value; `round(element.rect.height * grow_factor)` is modelled exactly over
ℚ. -/
def pyRound (q : ℚ) : ℤ :=
  let f := ⌊q⌋
  let frac := q - (f : ℚ)
  if frac < 1 / 2 then f
  else if 1 / 2 < frac then f + 1
  else if f % 2 = 0 then f else f + 1

/- `justify_elements`.  `justifyInto e w h` first assigns `e.rect.width = w`
and `e.rect.height = h` — the writes the PARENT loop performs on each
element before recursing (`element.rect.width = ...` etc.) — and then, when
`e` is a container, runs the container's own `justify_elements` body
(lines 370-380, 429-439 and 211-221): linear layouts grow every child along
the main axis by `round(extent * grow_factor)` (a `ZeroDivisionError` when
the summed content extent is 0) and stretch the cross axis to the
container's extent; grids re-apply the cached column widths / row heights to
every present cell, where — as in the source (`if c == len(rows[r]):
continue`) — a row more than one cell shorter than `column_count` hits a
missing index.  Calling `justify_elements` on a plain `Widget` is an
`AttributeError`.  Loop bounds `range(self.row_count)` /
`range(self.column_count)` walk the cached counts, which equal the actual
list lengths whenever `get_initial_rect` succeeded; the embedding walks the
rows list carrying the row index for the `row_heights[r]` lookups. -/
mutual
def justifyInto : Element → ℤ → ℤ → Except String Element
  | .widget wd, w, h => .ok (.widget { wd with rect := { wd.rect with width := w, height := h } })
  | .horiz st els, w, h =>
    let st2 := { st with rect := { st.rect with width := w, height := h } }
    let contentW := (els.map (fun e => e.rect.width)).sum
    if contentW = 0 then .error "float division by zero"
    else
      let gf : ℚ := ((st2.rect.width - st2.internalMargins : ℤ) : ℚ) / (contentW : ℚ)
      match justifyHorizEls st2.rect.height gf els with
      | .error e => .error e
      | .ok els2 => .ok (.horiz st2 els2)
  | .vert st els, w, h =>
    let st2 := { st with rect := { st.rect with width := w, height := h } }
    let contentH := (els.map (fun e => e.rect.height)).sum
    if contentH = 0 then .error "float division by zero"
    else
      let gf : ℚ := ((st2.rect.height - st2.internalMargins : ℤ) : ℚ) / (contentH : ℚ)
      match justifyVertEls st2.rect.width gf els with
      | .error e => .error e
      | .ok els2 => .ok (.vert st2 els2)
  | .grid st rows, w, h =>
    let st2 := { st with rect := { st.rect with width := w, height := h } }
    match gridJustifyRows st2.columnWidths st2.rowHeights st2.columnCount 0 rows with
    | .error e => .error e
    | .ok rows2 => .ok (.grid st2 rows2)

def justifyHorizEls (hh : ℤ) (gf : ℚ) : List Element → Except String (List Element)
  | [] => .ok []
  | e :: rest =>
    let neww := pyRound ((e.rect.width : ℚ) * gf)
    match (if e.isLayout then justifyInto e neww hh
           else .ok (e.withRect { e.rect with width := neww, height := hh })) with
    | .error er => .error er
    | .ok e2 =>
      match justifyHorizEls hh gf rest with
      | .error er => .error er
      | .ok rest2 => .ok (e2 :: rest2)

def justifyVertEls (ww : ℤ) (gf : ℚ) : List Element → Except String (List Element)
  | [] => .ok []
  | e :: rest =>
    let newh := pyRound ((e.rect.height : ℚ) * gf)
    match (if e.isLayout then justifyInto e ww newh
           else .ok (e.withRect { e.rect with width := ww, height := newh })) with
    | .error er => .error er
    | .ok e2 =>
      match justifyVertEls ww gf rest with
      | .error er => .error er
      | .ok rest2 => .ok (e2 :: rest2)

def gridJustifyRow (cw : List ℤ) (rh : ℤ) (cc : ℕ) : ℕ → List Element → Except String (List Element)
  | c, [] => if c + 1 < cc then .error "list index out of range" else .ok []
  | c, cell :: rest =>
    match cw[c]? with
    | none => .error "list index out of range"
    | some w =>
      match (if cell.isLayout then justifyInto cell w rh
             else .ok (cell.withRect { cell.rect with width := w, height := rh })) with
      | .error er => .error er
      | .ok cell2 =>
        match gridJustifyRow cw rh cc (c + 1) rest with
        | .error er => .error er
        | .ok rest2 => .ok (cell2 :: rest2)

def gridJustifyRows (cw rhs : List ℤ) (cc : ℕ) (r : ℕ) :
    List (List Element) → Except String (List (List Element))
  | [] => .ok []
  | row :: rest =>
    match rhs[r]? with
    | none => .error "list index out of range"
    | some rh =>
      match gridJustifyRow cw rh cc 0 row with
      | .error er => .error er
      | .ok row2 =>
        match gridJustifyRows cw rhs cc (r + 1) rest with
        | .error er => .error er
        | .ok rest2 => .ok (row2 :: rest2)
end

/-- `Widget.justify_elements` does not exist; on a container,
`justify_elements` runs on the already-assigned rect. -/
def justify_elements (e : Element) : Except String Element :=
  match e with
  | .widget _ => .error "AttributeError: Widget object has no attribute justify_elements"
  | _ => justifyInto e e.rect.width e.rect.height

/-- `LinearLayout.position_rects`, pass 1 for a VerticalLayout (lines
302-311 with `position_next_element` of lines 442-448): starting from the
already-positioned previous sibling, each next element gets
`top = prev.top + prev.height + max(prev.margin_bottom, next.margin_top)`
and `left = prev.left`; here `prev` advances.  Returns each element's
assigned `(top, left)`. -/
def vertPositions (prev : Element) (prevTop prevLeft : ℤ) :
    List Element → Except String (List (ℤ × ℤ))
  | [] => .ok []
  | next :: rest =>
    match marginBottom prev, marginTop next with
    | some mb, some mt =>
      let t := prevTop + prev.rect.height + max mb mt
      match vertPositions next t prevLeft rest with
      | .error e => .error e
      | .ok ps => .ok ((t, prevLeft) :: ps)
    | _, _ => .error "margin error"

/-- Pass 1 for a HorizontalLayout (lines 383-389):
`left = prev.left + prev.width + max(prev.margin_right, next.margin_left)`,
`top = prev.top`. -/
def horizPositions (prev : Element) (prevTop prevLeft : ℤ) :
    List Element → Except String (List (ℤ × ℤ))
  | [] => .ok []
  | next :: rest =>
    match marginRight prev, marginLeft next with
    | some mr, some ml =>
      let l := prevLeft + prev.rect.width + max mr ml
      match horizPositions next prevTop l rest with
      | .error e => .error e
      | .ok ps => .ok ((prevTop, l) :: ps)
    | _, _ => .error "margin error"

/-- The `tops`/`lefts` arrays of `GridLayout.position_rects` (lines
228-233): `count` offsets starting at `cur`, each next one adding
`sizes[idx] + margins[idx+1]`. -/
def offsetsFrom (sizes margins : List ℤ) (cur : ℤ) (idx : ℕ) :
    (count : ℕ) → Except String (List ℤ)
  | 0 => .ok []
  | 1 => .ok [cur]
  | Nat.succ (Nat.succ k) =>
    match sizes[idx]?, margins[idx + 1]? with
    | some s, some m =>
      match offsetsFrom sizes margins (cur + s + m) (idx + 1) (k + 1) with
      | .error e => .error e
      | .ok rest => .ok (cur :: rest)
    | _, _ => .error "list index out of range"

/- `position_rects`.  `positionInto e t l` first assigns `e.rect.top = t`
and `e.rect.left = l` — the writes the parent performs on the element — and
then, when `e` is a container, runs the container's `position_rects` body.
For linear layouts the source runs two loops: one positioning every sibling,
one recursing into contained layouts; the sibling positions depend only on
margins and extents, which the recursion never changes, so computing all
positions first (`vertPositions`/`horizPositions`, matching loop one) and
then walking the children once more applying them and recursing
(`positionApply`, matching loop two) reproduces it exactly.  For grids
(lines 224-240) the source recurses cell by cell; `if c <= len(self.rows[r])`
lets `c == len(row)` through to a missing-cell index error on every ragged
row, and cells with `c > len(row)` are skipped. -/
mutual
def positionInto : Element → ℤ → ℤ → Except String Element
  | .widget wd, t, l => .ok (.widget { wd with rect := { wd.rect with top := t, left := l } })
  | .horiz st els, t, l =>
    let st2 := { st with rect := { st.rect with top := t, left := l } }
    match els with
    | [] => .error "list index out of range"
    | first :: rest =>
      match horizPositions first st2.rect.top st2.rect.left rest with
      | .error e => .error e
      | .ok ps =>
        match positionApply ((st2.rect.top, st2.rect.left) :: ps) (first :: rest) with
        | .error e => .error e
        | .ok els2 => .ok (.horiz st2 els2)
  | .vert st els, t, l =>
    let st2 := { st with rect := { st.rect with top := t, left := l } }
    match els with
    | [] => .error "list index out of range"
    | first :: rest =>
      match vertPositions first st2.rect.top st2.rect.left rest with
      | .error e => .error e
      | .ok ps =>
        match positionApply ((st2.rect.top, st2.rect.left) :: ps) (first :: rest) with
        | .error e => .error e
        | .ok els2 => .ok (.vert st2 els2)
  | .grid st rows, t, l =>
    let st2 := { st with rect := { st.rect with top := t, left := l } }
    match offsetsFrom st2.rowHeights st2.rowMargins st2.rect.top 0 st2.rowCount with
    | .error e => .error e
    | .ok tops =>
      match offsetsFrom st2.columnWidths st2.columnMargins st2.rect.left 0 st2.columnCount with
      | .error e => .error e
      | .ok lefts =>
        match gridPositionRows tops lefts st2.columnCount 0 rows with
        | .error e => .error e
        | .ok rows2 => .ok (.grid st2 rows2)

def positionApply : List (ℤ × ℤ) → List Element → Except String (List Element)
  | _, [] => .ok []
  | [], e :: rest => .ok (e :: rest)
  | (t, l) :: ps, e :: rest =>
    match (if e.isLayout then positionInto e t l
           else .ok (e.withRect { e.rect with top := t, left := l })) with
    | .error er => .error er
    | .ok e2 =>
      match positionApply ps rest with
      | .error er => .error er
      | .ok rest2 => .ok (e2 :: rest2)

def gridPositionRow (cc : ℕ) (rowTop : ℤ) (lefts : List ℤ) :
    ℕ → List Element → Except String (List Element)
  | c, [] => if c < cc then .error "list index out of range" else .ok []
  | c, cell :: rest =>
    match lefts[c]? with
    | none => .error "list index out of range"
    | some lf =>
      match (if cell.isLayout then positionInto cell rowTop lf
             else .ok (cell.withRect { cell.rect with top := rowTop, left := lf })) with
      | .error er => .error er
      | .ok cell2 =>
        match gridPositionRow cc rowTop lefts (c + 1) rest with
        | .error er => .error er
        | .ok rest2 => .ok (cell2 :: rest2)

def gridPositionRows (tops lefts : List ℤ) (cc : ℕ) (r : ℕ) :
    List (List Element) → Except String (List (List Element))
  | [] => .ok []
  | row :: rest =>
    match tops[r]? with
    | none => .error "list index out of range"
    | some t =>
      match gridPositionRow cc t lefts 0 row with
      | .error er => .error er
      | .ok row2 =>
        match gridPositionRows tops lefts cc (r + 1) rest with
        | .error er => .error er
        | .ok rest2 => .ok (row2 :: rest2)
end

/-- `Widget.position_rects` does not exist; on a container, `position_rects`
runs on the already-assigned rect. -/
def position_rects (e : Element) : Except String Element :=
  match e with
  | .widget _ => .error "AttributeError: Widget object has no attribute position_rects"
  | _ => positionInto e e.rect.top e.rect.left

/-- The three-pass protocol as `Dialog.initialize_display` runs it:
`get_initial_rect`, an optional externally-assigned root rect (the screen
box; `none` keeps the minimum rect), `justify_elements`, `position_rects`. -/
def applyOverride (override : Option PRect) (e : Element) : Element :=
  match override with
  | some r => e.withRect r
  | none => e

def runSequence (override : Option PRect) (e : Element) : Except String Element :=
  match measureEl e with
  | .error s => .error s
  | .ok e1 =>
    match justify_elements (applyOverride override e1) with
    | .error s => .error s
    | .ok e2 => position_rects e2

theorem eraseRows_mapLength (rr : List (List Element)) :
    (eraseRows rr).map List.length = rr.map List.length := by
  induction rr with
  | nil => rfl
  | cons row rest ih =>
    simp only [eraseRows, List.map_cons, ih, eraseList_length]

theorem ccOf_congr (rr2 rr : List (List Element))
    (h : rr2.map List.length = rr.map List.length) : ccOf rr2 = ccOf rr := by
  unfold ccOf
  induction rr2 generalizing rr with
  | nil =>
    cases rr with
    | nil => rfl
    | cons r rest => simp at h
  | cons row rest ih =>
    cases rr with
    | nil => simp at h
    | cons row2 rest2 =>
      simp only [List.map_cons, List.cons.injEq] at h
      show List.foldl _ (max 0 row.length) rest = List.foldl _ (max 0 row2.length) rest2
      rw [h.1]
      exact foldAux rest rest2 h.2 (max 0 row2.length)
where
  foldAux : ∀ (a b : List (List Element)), a.map List.length = b.map List.length →
      ∀ acc, List.foldl (fun m row => max m row.length) acc a =
        List.foldl (fun m row => max m row.length) acc b := by
    intro a
    induction a with
    | nil =>
      intro b h acc
      cases b with
      | nil => rfl
      | cons y ys => simp at h
    | cons x xs ih =>
      intro b h acc
      cases b with
      | nil => simp at h
      | cons y ys =>
        simp only [List.map_cons, List.cons.injEq] at h
        simp only [List.foldl_cons, h.1]
        exact ih ys h.2 (max acc y.length)

mutual
theorem measure_erase (e : Element) : measureEl (eraseEl e) = measureEl e := by
  cases e with
  | widget w => rfl
  | horiz st els =>
    cases els with
    | nil => rfl
    | cons first rest =>
      show measureEl (.horiz _ (eraseEl first :: eraseList rest)) = _
      simp only [measureEl, measure_erase first]
      rcases hm : measureEl first with er | first2
      · rfl
      · simp only []
        rw [measureHorizRest_erase first2 first2.rect.height first2.rect.width 0 rest]
  | vert st els =>
    cases els with
    | nil => rfl
    | cons first rest =>
      show measureEl (.vert _ (eraseEl first :: eraseList rest)) = _
      simp only [measureEl, measure_erase first]
      rcases hm : measureEl first with er | first2
      · rfl
      · simp only []
        rw [measureVertRest_erase first2 first2.rect.width first2.rect.height 0 rest]
  | grid st rows =>
    show measureEl (.grid _ (eraseRows rows)) = _
    simp only [measureEl]
    rw [ccOf_congr (eraseRows rows) rows (eraseRows_mapLength rows)]
    rw [measureRows_erase (ccOf rows) rows]
termination_by esize e
decreasing_by
  all_goals simp [esize, esizeList, esizeRows]
  all_goals omega

theorem measureVertRest_erase (prev : Element) (w h im : ℤ) (l : List Element) :
    measureVertRest prev w h im (eraseList l) = measureVertRest prev w h im l := by
  cases l with
  | nil => rfl
  | cons next rest =>
    show measureVertRest prev w h im (eraseEl next :: eraseList rest) = _
    simp only [measureVertRest, measure_erase next]
    rcases hm : measureEl next with er | next2
    · rfl
    · simp only []
      rcases marginBottom prev with _ | mb
      · rfl
      · rcases marginTop next2 with _ | mt
        · rfl
        · simp only []
          rw [measureVertRest_erase prev (max w next2.rect.width)
            (h + max mb mt + next2.rect.height) (im + max mb mt) rest]
termination_by esizeList l
decreasing_by
  all_goals simp [esize, esizeList, esizeRows]
  all_goals omega

theorem measureHorizRest_erase (prev : Element) (h w im : ℤ) (l : List Element) :
    measureHorizRest prev h w im (eraseList l) = measureHorizRest prev h w im l := by
  cases l with
  | nil => rfl
  | cons next rest =>
    show measureHorizRest prev h w im (eraseEl next :: eraseList rest) = _
    simp only [measureHorizRest, measure_erase next]
    rcases hm : measureEl next with er | next2
    · rfl
    · simp only []
      rcases marginRight prev with _ | mr
      · rfl
      · rcases marginLeft next2 with _ | ml
        · rfl
        · simp only []
          rw [measureHorizRest_erase prev (max h next2.rect.height)
            (w + max mr ml + next2.rect.width) (im + max mr ml) rest]
termination_by esizeList l
decreasing_by
  all_goals simp [esize, esizeList, esizeRows]
  all_goals omega

theorem measureCells_erase (l : List Element) :
    measureCells (eraseList l) = measureCells l := by
  cases l with
  | nil => rfl
  | cons c rest =>
    show measureCells (eraseEl c :: eraseList rest) = _
    simp only [measureCells, measure_erase c]
    rcases hm : measureEl c with er | c2
    · rfl
    · simp only []
      rw [measureCells_erase rest]
termination_by esizeList l
decreasing_by
  all_goals simp [esize, esizeList, esizeRows]
  all_goals omega

theorem measureRows_erase (cc : ℕ) (rr : List (List Element)) :
    measureRows cc (eraseRows rr) = measureRows cc rr := by
  cases rr with
  | nil => rfl
  | cons row rest =>
    show measureRows cc (eraseList row :: eraseRows rest) = _
    simp only [measureRows, measureCells_erase row, eraseList_length]
    rcases hm : measureCells row with er | row2
    · rfl
    · simp only []
      by_cases hg : cc ≤ row.length + 1
      · rw [if_pos hg, if_pos hg, measureRows_erase cc rest]
      · rw [if_neg hg, if_neg hg]
termination_by esizeRows rr
decreasing_by
  all_goals simp [esize, esizeList, esizeRows]
  all_goals omega
end

theorem measureWidget_idem (w : WData) : measureWidget (measureWidget w) = measureWidget w := by
  rfl

theorem measureCells_length (l l2 : List Element) (h : measureCells l = .ok l2) :
    l2.length = l.length := by
  induction l generalizing l2 with
  | nil =>
    simp only [measureCells] at h
    cases h
    rfl
  | cons c rest ih =>
    rcases hm : measureEl c with er | c2
    · simp only [measureCells, hm] at h
      cases h
    · simp only [measureCells, hm] at h
      rcases hr : measureCells rest with er | rest2
      · simp only [hr] at h
        cases h
      · simp only [hr] at h
        cases h
        simp [ih rest2 hr]

theorem measureRows_mapLength (cc : ℕ) (rr rr2 : List (List Element))
    (h : measureRows cc rr = .ok rr2) : rr2.map List.length = rr.map List.length := by
  induction rr generalizing rr2 with
  | nil =>
    simp only [measureRows] at h
    cases h
    rfl
  | cons row rest ih =>
    rcases hm : measureCells row with er | row2
    · simp only [measureRows, hm] at h
      cases h
    · simp only [measureRows, hm] at h
      by_cases hg : cc ≤ row.length + 1
      · rw [if_pos hg] at h
        rcases hr : measureRows cc rest with er | rest2
        · simp only [hr] at h
          cases h
        · simp only [hr] at h
          cases h
          simp only [List.map_cons, ih rest2 hr, List.cons.injEq, and_true]
          exact measureCells_length row row2 hm
      · rw [if_neg hg] at h
        cases h

mutual
theorem measure_idem : ∀ (e e1 : Element), measureEl e = .ok e1 → measureEl e1 = .ok e1
  | .widget w, e1, h => by
    simp only [measureEl] at h
    cases h
    simp only [measureEl, measureWidget_idem]
  | .horiz st [], e1, h => by
    simp only [measureEl] at h
    cases h
  | .horiz st (first :: rest), e1, h => by
    rcases hm : measureEl first with er | first2
    · simp only [measureEl, hm] at h
      cases h
    · simp only [measureEl, hm] at h
      rcases hr : measureHorizRest first2 first2.rect.height first2.rect.width 0 rest
        with er | ⟨rest2, hh, ww, im⟩
      · simp only [hr] at h
        cases h
      · simp only [hr] at h
        cases h
        simp only [measureEl, measure_idem first first2 hm]
        rw [measureHorizRest_idem first2 first2.rect.height first2.rect.width 0
          rest rest2 hh ww im hr]
  | .vert st [], e1, h => by
    simp only [measureEl] at h
    cases h
  | .vert st (first :: rest), e1, h => by
    rcases hm : measureEl first with er | first2
    · simp only [measureEl, hm] at h
      cases h
    · simp only [measureEl, hm] at h
      rcases hr : measureVertRest first2 first2.rect.width first2.rect.height 0 rest
        with er | ⟨rest2, ww, hh, im⟩
      · simp only [hr] at h
        cases h
      · simp only [hr] at h
        cases h
        simp only [measureEl, measure_idem first first2 hm]
        rw [measureVertRest_idem first2 first2.rect.width first2.rect.height 0
          rest rest2 ww hh im hr]
  | .grid st rows, e1, h => by
    rcases hm : measureRows (ccOf rows) rows with er | rows2
    · simp only [measureEl, hm] at h
      cases h
    · simp only [measureEl, hm] at h
      rcases hg : gridCompute (ccOf rows) rows2 with er | st2
      · simp only [hg] at h
        cases h
      · simp only [hg] at h
        cases h
        have hcc : ccOf rows2 = ccOf rows :=
          ccOf_congr rows2 rows (measureRows_mapLength (ccOf rows) rows rows2 hm)
        simp only [measureEl, hcc]
        rw [measureRows_idem (ccOf rows) rows rows2 hm]
        simp only [hg]
termination_by e => esize e
decreasing_by
  all_goals simp [esize, esizeList, esizeRows]
  all_goals omega

theorem measureVertRest_idem : ∀ (prev : Element) (w h im : ℤ) (l l2 : List Element)
    (w2 h2 im2 : ℤ), measureVertRest prev w h im l = .ok (l2, w2, h2, im2) →
    measureVertRest prev w h im l2 = .ok (l2, w2, h2, im2)
  | prev, w, h, im, [], l2, w2, h2, im2, hh => by
    simp only [measureVertRest] at hh
    cases hh
    rfl
  | prev, w, h, im, next :: rest, l2, w2, h2, im2, hh => by
    rcases hm : measureEl next with er | next2
    · simp only [measureVertRest, hm] at hh
      cases hh
    · simp only [measureVertRest, hm] at hh
      rcases hmb : marginBottom prev with _ | mb
      · simp only [hmb] at hh
        cases hh
      · rcases hmt : marginTop next2 with _ | mt
        · simp only [hmb, hmt] at hh
          cases hh
        · simp only [hmb, hmt] at hh
          rcases hr : measureVertRest prev (max w next2.rect.width)
              (h + max mb mt + next2.rect.height) (im + max mb mt) rest
            with er | ⟨rest2, w3, h3, im3⟩
          · simp only [hr] at hh
            cases hh
          · simp only [hr] at hh
            cases hh
            simp only [measureVertRest, measure_idem next next2 hm, hmb, hmt]
            rw [measureVertRest_idem prev (max w next2.rect.width)
              (h + max mb mt + next2.rect.height) (im + max mb mt) rest rest2 w2 h2 im2 hr]
termination_by _ _ _ _ l => esizeList l
decreasing_by
  all_goals simp [esize, esizeList, esizeRows]
  all_goals omega

theorem measureHorizRest_idem : ∀ (prev : Element) (h w im : ℤ) (l l2 : List Element)
    (h2 w2 im2 : ℤ), measureHorizRest prev h w im l = .ok (l2, h2, w2, im2) →
    measureHorizRest prev h w im l2 = .ok (l2, h2, w2, im2)
  | prev, h, w, im, [], l2, h2, w2, im2, hh => by
    simp only [measureHorizRest] at hh
    cases hh
    rfl
  | prev, h, w, im, next :: rest, l2, h2, w2, im2, hh => by
    rcases hm : measureEl next with er | next2
    · simp only [measureHorizRest, hm] at hh
      cases hh
    · simp only [measureHorizRest, hm] at hh
      rcases hmr : marginRight prev with _ | mr
      · simp only [hmr] at hh
        cases hh
      · rcases hml : marginLeft next2 with _ | ml
        · simp only [hmr, hml] at hh
          cases hh
        · simp only [hmr, hml] at hh
          rcases hr : measureHorizRest prev (max h next2.rect.height)
              (w + max mr ml + next2.rect.width) (im + max mr ml) rest
            with er | ⟨rest2, h3, w3, im3⟩
          · simp only [hr] at hh
            cases hh
          · simp only [hr] at hh
            cases hh
            simp only [measureHorizRest, measure_idem next next2 hm, hmr, hml]
            rw [measureHorizRest_idem prev (max h next2.rect.height)
              (w + max mr ml + next2.rect.width) (im + max mr ml) rest rest2 h2 w2 im2 hr]
termination_by _ _ _ _ l => esizeList l
decreasing_by
  all_goals simp [esize, esizeList, esizeRows]
  all_goals omega

theorem measureCells_idem : ∀ (l l2 : List Element), measureCells l = .ok l2 →
    measureCells l2 = .ok l2
  | [], l2, h => by
    simp only [measureCells] at h
    cases h
    rfl
  | c :: rest, l2, h => by
    rcases hm : measureEl c with er | c2
    · simp only [measureCells, hm] at h
      cases h
    · simp only [measureCells, hm] at h
      rcases hr : measureCells rest with er | rest2
      · simp only [hr] at h
        cases h
      · simp only [hr] at h
        cases h
        simp only [measureCells, measure_idem c c2 hm]
        rw [measureCells_idem rest rest2 hr]
termination_by l => esizeList l
decreasing_by
  all_goals simp [esize, esizeList, esizeRows]
  all_goals omega

theorem measureRows_idem : ∀ (cc : ℕ) (rr rr2 : List (List Element)),
    measureRows cc rr = .ok rr2 → measureRows cc rr2 = .ok rr2
  | cc, [], rr2, h => by
    simp only [measureRows] at h
    cases h
    rfl
  | cc, row :: rest, rr2, h => by
    rcases hm : measureCells row with er | row2
    · simp only [measureRows, hm] at h
      cases h
    · simp only [measureRows, hm] at h
      by_cases hg : cc ≤ row.length + 1
      · rw [if_pos hg] at h
        rcases hr : measureRows cc rest with er | rest2
        · simp only [hr] at h
          cases h
        · simp only [hr] at h
          cases h
          simp only [measureRows, measureCells_idem row row2 hm]
          rw [if_pos (by rw [measureCells_length row row2 hm]; exact hg)]
          rw [measureRows_idem cc rest rest2 hr]
      · rw [if_neg hg] at h
        cases h
termination_by _ rr => esizeRows rr
decreasing_by
  all_goals simp [esize, esizeList, esizeRows]
  all_goals omega
end

mutual
theorem justify_erase : ∀ (e : Element) (w h : ℤ) (e2 : Element),
    justifyInto e w h = .ok e2 → eraseEl e2 = eraseEl e
  | .widget wd, w, h, e2, hj => by
    simp only [justifyInto] at hj
    cases hj
    rfl
  | .horiz st els, w, h, e2, hj => by
    simp only [justifyInto] at hj
    split at hj
    · cases hj
    · split at hj
      · cases hj
      · next els2 hr =>
        cases hj
        show eraseEl (.horiz _ els2) = eraseEl (.horiz st els)
        simp only [eraseEl]
        rw [justifyHorizEls_erase _ _ els els2 hr]
  | .vert st els, w, h, e2, hj => by
    simp only [justifyInto] at hj
    split at hj
    · cases hj
    · split at hj
      · cases hj
      · next els2 hr =>
        cases hj
        show eraseEl (.vert _ els2) = eraseEl (.vert st els)
        simp only [eraseEl]
        rw [justifyVertEls_erase _ _ els els2 hr]
  | .grid st rows, w, h, e2, hj => by
    simp only [justifyInto] at hj
    split at hj
    · cases hj
    · next rows2 hr =>
      cases hj
      show eraseEl (.grid _ rows2) = eraseEl (.grid st rows)
      simp only [eraseEl]
      rw [gridJustifyRows_erase _ _ _ _ rows rows2 hr]
termination_by e => esize e
decreasing_by
  all_goals simp [esize, esizeList, esizeRows]
  all_goals omega

theorem justifyHorizEls_erase : ∀ (hh : ℤ) (gf : ℚ) (l l2 : List Element),
    justifyHorizEls hh gf l = .ok l2 → eraseList l2 = eraseList l
  | hh, gf, [], l2, h => by
    simp only [justifyHorizEls] at h
    cases h
    rfl
  | hh, gf, e :: rest, l2, h => by
    simp only [justifyHorizEls] at h
    split at h
    · cases h
    · next e2 he =>
      split at h
      · cases h
      · next rest2 hr =>
        cases h
        have hee : eraseEl e2 = eraseEl e := by
          split at he
          · exact justify_erase e _ _ e2 he
          · cases he
            rw [eraseEl_withRect]
        show eraseList (e2 :: rest2) = eraseList (e :: rest)
        simp only [eraseList, hee]
        rw [justifyHorizEls_erase hh gf rest rest2 hr]
termination_by _ _ l => esizeList l
decreasing_by
  all_goals simp [esize, esizeList, esizeRows]
  all_goals omega

theorem justifyVertEls_erase : ∀ (ww : ℤ) (gf : ℚ) (l l2 : List Element),
    justifyVertEls ww gf l = .ok l2 → eraseList l2 = eraseList l
  | ww, gf, [], l2, h => by
    simp only [justifyVertEls] at h
    cases h
    rfl
  | ww, gf, e :: rest, l2, h => by
    simp only [justifyVertEls] at h
    split at h
    · cases h
    · next e2 he =>
      split at h
      · cases h
      · next rest2 hr =>
        cases h
        have hee : eraseEl e2 = eraseEl e := by
          split at he
          · exact justify_erase e _ _ e2 he
          · cases he
            rw [eraseEl_withRect]
        show eraseList (e2 :: rest2) = eraseList (e :: rest)
        simp only [eraseList, hee]
        rw [justifyVertEls_erase ww gf rest rest2 hr]
termination_by _ _ l => esizeList l
decreasing_by
  all_goals simp [esize, esizeList, esizeRows]
  all_goals omega

theorem gridJustifyRow_erase : ∀ (cw : List ℤ) (rh : ℤ) (cc c : ℕ)
    (l l2 : List Element), gridJustifyRow cw rh cc c l = .ok l2 →
    eraseList l2 = eraseList l
  | cw, rh, cc, c, [], l2, h => by
    simp only [gridJustifyRow] at h
    split at h
    · cases h
    · cases h
      rfl
  | cw, rh, cc, c, cell :: rest, l2, h => by
    simp only [gridJustifyRow] at h
    split at h
    · cases h
    · next w hw =>
      split at h
      · cases h
      · next cell2 he =>
        split at h
        · cases h
        · next rest2 hr =>
          cases h
          have hee : eraseEl cell2 = eraseEl cell := by
            split at he
            · exact justify_erase cell _ _ cell2 he
            · cases he
              rw [eraseEl_withRect]
          show eraseList (cell2 :: rest2) = eraseList (cell :: rest)
          simp only [eraseList, hee]
          rw [gridJustifyRow_erase cw rh cc (c + 1) rest rest2 hr]
termination_by _ _ _ _ l => esizeList l
decreasing_by
  all_goals simp [esize, esizeList, esizeRows]
  all_goals omega

theorem gridJustifyRows_erase : ∀ (cw rhs : List ℤ) (cc r : ℕ)
    (rr rr2 : List (List Element)), gridJustifyRows cw rhs cc r rr = .ok rr2 →
    eraseRows rr2 = eraseRows rr
  | cw, rhs, cc, r, [], rr2, h => by
    simp only [gridJustifyRows] at h
    cases h
    rfl
  | cw, rhs, cc, r, row :: rest, rr2, h => by
    simp only [gridJustifyRows] at h
    split at h
    · cases h
    · next rh hrh =>
      split at h
      · cases h
      · next row2 hrow =>
        split at h
        · cases h
        · next rest2 hrest =>
          cases h
          show eraseRows (row2 :: rest2) = eraseRows (row :: rest)
          simp only [eraseRows]
          rw [gridJustifyRow_erase cw rh cc 0 row row2 hrow]
          rw [gridJustifyRows_erase cw rhs cc (r + 1) rest rest2 hrest]
termination_by _ _ _ _ rr => esizeRows rr
decreasing_by
  all_goals simp [esize, esizeList, esizeRows]
  all_goals omega
end

theorem justify_elements_erase (e e2 : Element) (h : justify_elements e = .ok e2) :
    eraseEl e2 = eraseEl e := by
  cases e with
  | widget wd =>
    simp only [justify_elements] at h
    cases h
  | horiz st els => exact justify_erase _ _ _ _ h
  | vert st els => exact justify_erase _ _ _ _ h
  | grid st rows => exact justify_erase _ _ _ _ h

mutual
theorem position_erase : ∀ (e : Element) (t l : ℤ) (e2 : Element),
    positionInto e t l = .ok e2 → eraseEl e2 = eraseEl e
  | .widget wd, t, l, e2, hp => by
    simp only [positionInto] at hp
    cases hp
    rfl
  | .horiz st [], t, l, e2, hp => by
    simp only [positionInto] at hp
    cases hp
  | .horiz st (first :: rest), t, l, e2, hp => by
    simp only [positionInto] at hp
    split at hp
    · cases hp
    · next ps hps =>
      split at hp
      · cases hp
      · next els2 happ =>
        cases hp
        show eraseEl (.horiz _ els2) = eraseEl (.horiz st (first :: rest))
        simp only [eraseEl]
        rw [positionApply_erase _ (first :: rest) els2 happ]
  | .vert st [], t, l, e2, hp => by
    simp only [positionInto] at hp
    cases hp
  | .vert st (first :: rest), t, l, e2, hp => by
    simp only [positionInto] at hp
    split at hp
    · cases hp
    · next ps hps =>
      split at hp
      · cases hp
      · next els2 happ =>
        cases hp
        show eraseEl (.vert _ els2) = eraseEl (.vert st (first :: rest))
        simp only [eraseEl]
        rw [positionApply_erase _ (first :: rest) els2 happ]
  | .grid st rows, t, l, e2, hp => by
    simp only [positionInto] at hp
    split at hp
    · cases hp
    · next tops htops =>
      split at hp
      · cases hp
      · next lefts hlefts =>
        split at hp
        · cases hp
        · next rows2 hrows =>
          cases hp
          show eraseEl (.grid _ rows2) = eraseEl (.grid st rows)
          simp only [eraseEl]
          rw [gridPositionRows_erase tops lefts _ 0 rows rows2 hrows]
termination_by e => esize e
decreasing_by
  all_goals simp [esize, esizeList, esizeRows]
  all_goals omega

theorem positionApply_erase : ∀ (ps : List (ℤ × ℤ)) (l l2 : List Element),
    positionApply ps l = .ok l2 → eraseList l2 = eraseList l
  | ps, [], l2, h => by
    simp only [positionApply] at h
    cases h
    rfl
  | [], e :: rest, l2, h => by
    simp only [positionApply] at h
    cases h
    rfl
  | (t, lf) :: ps, e :: rest, l2, h => by
    simp only [positionApply] at h
    split at h
    · cases h
    · next e2 he =>
      split at h
      · cases h
      · next rest2 hr =>
        cases h
        have hee : eraseEl e2 = eraseEl e := by
          split at he
          · exact position_erase e _ _ e2 he
          · cases he
            rw [eraseEl_withRect]
        show eraseList (e2 :: rest2) = eraseList (e :: rest)
        simp only [eraseList, hee]
        rw [positionApply_erase ps rest rest2 hr]
termination_by _ l => esizeList l
decreasing_by
  all_goals simp [esize, esizeList, esizeRows]
  all_goals omega

theorem gridPositionRow_erase : ∀ (cc : ℕ) (rowTop : ℤ) (lefts : List ℤ) (c : ℕ)
    (l l2 : List Element), gridPositionRow cc rowTop lefts c l = .ok l2 →
    eraseList l2 = eraseList l
  | cc, rowTop, lefts, c, [], l2, h => by
    simp only [gridPositionRow] at h
    split at h
    · cases h
    · cases h
      rfl
  | cc, rowTop, lefts, c, cell :: rest, l2, h => by
    simp only [gridPositionRow] at h
    split at h
    · cases h
    · next lf hlf =>
      split at h
      · cases h
      · next cell2 he =>
        split at h
        · cases h
        · next rest2 hr =>
          cases h
          have hee : eraseEl cell2 = eraseEl cell := by
            split at he
            · exact position_erase cell _ _ cell2 he
            · cases he
              rw [eraseEl_withRect]
          show eraseList (cell2 :: rest2) = eraseList (cell :: rest)
          simp only [eraseList, hee]
          rw [gridPositionRow_erase cc rowTop lefts (c + 1) rest rest2 hr]
termination_by _ _ _ _ l => esizeList l
decreasing_by
  all_goals simp [esize, esizeList, esizeRows]
  all_goals omega

theorem gridPositionRows_erase : ∀ (tops lefts : List ℤ) (cc r : ℕ)
    (rr rr2 : List (List Element)), gridPositionRows tops lefts cc r rr = .ok rr2 →
    eraseRows rr2 = eraseRows rr
  | tops, lefts, cc, r, [], rr2, h => by
    simp only [gridPositionRows] at h
    cases h
    rfl
  | tops, lefts, cc, r, row :: rest, rr2, h => by
    simp only [gridPositionRows] at h
    split at h
    · cases h
    · next t ht =>
      split at h
      · cases h
      · next row2 hrow =>
        split at h
        · cases h
        · next rest2 hrest =>
          cases h
          show eraseRows (row2 :: rest2) = eraseRows (row :: rest)
          simp only [eraseRows]
          rw [gridPositionRow_erase cc t lefts 0 row row2 hrow]
          rw [gridPositionRows_erase tops lefts cc (r + 1) rest rest2 hrest]
termination_by _ _ _ _ rr => esizeRows rr
decreasing_by
  all_goals simp [esize, esizeList, esizeRows]
  all_goals omega
end

theorem position_rects_erase (e e2 : Element) (h : position_rects e = .ok e2) :
    eraseEl e2 = eraseEl e := by
  cases e with
  | widget wd =>
    simp only [position_rects] at h
    cases h
  | horiz st els => exact position_erase _ _ _ _ h
  | vert st els => exact position_erase _ _ _ _ h
  | grid st rows => exact position_erase _ _ _ _ h

theorem applyOverride_erase (override : Option PRect) (e : Element) :
    eraseEl (applyOverride override e) = eraseEl e := by
  cases override with
  | none => rfl
  | some r => exact eraseEl_withRect e r

/-- C1: the three-pass layout protocol is idempotent.  If
`get_initial_rect` / (optional external root-rect assignment) /
`justify_elements` / `position_rects` succeeded once on a tree, running the
same sequence on the resulting tree succeeds and returns exactly the same
tree — in particular the same rect for every element. -/
theorem c1_three_pass_idempotent (override : Option PRect) (e out : Element)
    (h : runSequence override e = .ok out) : runSequence override out = .ok out := by
  rcases hm : measureEl e with er | e1
  · simp only [runSequence, hm] at h
    cases h
  · simp only [runSequence, hm] at h
    rcases hj : justify_elements (applyOverride override e1) with er | e2
    · simp only [hj] at h
      cases h
    · simp only [hj] at h
      have hout_erase : eraseEl out = eraseEl e1 := by
        rw [position_rects_erase e2 out h, justify_elements_erase _ e2 hj,
          applyOverride_erase]
      have hmo : measureEl out = .ok e1 := by
        rw [← measure_erase out, hout_erase, measure_erase e1]
        exact measure_idem e e1 hm
      simp only [runSequence, hmo, hj, h]

/-- A `Label(text, width=w, height=h)` with the default `margin = 10` and
`padding = 8` of `Widget`; explicit width/height make the renderer's text
measurement irrelevant. -/
def sampleLabel (w h : ℤ) : Element :=
  .widget { margin_top := 10, margin_right := 10, margin_bottom := 10, margin_left := 10,
            padding_top := 8, padding_right := 8, padding_bottom := 8, padding_left := 8,
            width := some w, height := some h, measuredW := 0, measuredH := 0,
            rect := ⟨0, 0, 0, 0⟩ }

def sampleLabelR (w h : ℤ) (r : PRect) : Element :=
  .widget { margin_top := 10, margin_right := 10, margin_bottom := 10, margin_left := 10,
            padding_top := 8, padding_right := 8, padding_bottom := 8, padding_left := 8,
            width := some w, height := some h, measuredW := 0, measuredH := 0,
            rect := r }

def c1tree : Element := .vert ⟨⟨0, 0, 0, 0⟩, 0⟩ [sampleLabel 30 10, sampleLabel 20 14]

def c1out : Element :=
  .vert ⟨⟨0, 0, 46, 66⟩, 10⟩
    [sampleLabelR 30 10 ⟨0, 0, 46, 26⟩, sampleLabelR 20 14 ⟨0, 36, 46, 30⟩]

/-- The three passes evaluated on `c1tree` (ℚ arithmetic — the grow
factor — is evaluated by `norm_num`, which the kernel cannot reduce). -/
theorem c1_eval : runSequence none c1tree = .ok c1out := by
  norm_num [runSequence, c1tree, c1out, sampleLabel, sampleLabelR, measureEl,
    measureVertRest, measureHorizRest, measureCells, measureRows, measureWidget,
    applyOverride, justify_elements, justifyInto, justifyHorizEls, justifyVertEls,
    pyRound, position_rects, positionInto, positionApply, vertPositions,
    horizPositions, offsetsFrom, marginTop, marginBottom, marginLeft, marginRight,
    marginTopMaxL, marginBottomMaxL, marginLeftMaxL, marginRightMaxL,
    lastMarginBottom, lastMarginRight, Element.rect, Element.withRect, Element.isLayout]

theorem c1_witness :
    runSequence none c1tree = .ok c1out ∧ runSequence none c1out = .ok c1out :=
  ⟨c1_eval, c1_three_pass_idempotent none c1tree c1out c1_eval⟩

/-- The rect `get_initial_rect` returns (junk when it raises). -/
def measuredRect (e : Element) : PRect :=
  match measureEl e with
  | .ok m => m.rect
  | .error _ => ⟨0, 0, 0, 0⟩

def c2grid : Element :=
  .grid ⟨⟨0, 0, 0, 0⟩, 0, 0, [], [], [], []⟩
    [[sampleLabel 10 10, sampleLabel 10 10], [sampleLabel 10 10]]

def c2gridM : Element :=
  .grid ⟨⟨0, 0, 62, 62⟩, 2, 2, [26, 26], [26, 26], [10, 10, 10], [10, 10, 10]⟩
    [[sampleLabelR 10 10 ⟨0, 0, 26, 26⟩, sampleLabelR 10 10 ⟨0, 0, 26, 26⟩],
     [sampleLabelR 10 10 ⟨0, 0, 26, 26⟩]]

def c2gridTwoShort : Element :=
  .grid ⟨⟨0, 0, 0, 0⟩, 0, 0, [], [], [], []⟩
    [[sampleLabel 10 10, sampleLabel 10 10, sampleLabel 10 10], [sampleLabel 10 10]]

/-- C2 evaluated at failing inputs: on a ragged grid (second row one cell
short) `get_initial_rect` succeeds, but `position_rects` raises an
IndexError — `if c <= len(self.rows[r])` lets `c == len(row)` through to
`self.rows[r][c]` — although its own comment says it must not touch a cell
which doesn't exist; and `get_initial_rect` itself raises on a row two cells
short, because `if c == len(row): continue` skips only one column. -/
theorem c2_grid_ragged_raises :
    measureEl c2grid = .ok c2gridM ∧
    position_rects c2gridM = .error "list index out of range" ∧
    measureEl c2gridTwoShort = .error "list index out of range" :=
  ⟨by rfl, by rfl, by rfl⟩

def c3tree : Element := .vert ⟨⟨0, 0, 0, 0⟩, 0⟩ [sampleLabel 50 20, sampleLabel 40 30]

/-- C3 counterexample: `VerticalLayout(Label("A", height=20, width=50),
Label("B", height=30, width=40))` with the default margin 10 measures to a
66 × 92 minimum box, not 50 × 60: the default `padding = 8` pads every
widget on all four sides. -/
theorem c3_counterexample :
    (measuredRect c3tree).width = 66 ∧ (measuredRect c3tree).height = 92 ∧
    (66 : ℤ) ≠ 50 ∧ (92 : ℤ) ≠ 60 :=
  ⟨by rfl, by rfl, by decide, by decide⟩

/-- C3 (amended): the same scenario with the default `padding = 8` counted:
minimum width `8 + 50 + 8 = 66` and height `36 + max(10, 10) + 46 = 92`,
where 36 and 46 are the padded label heights — the facing margins collapse
to `max(10, 10) = 10` and are counted once, never summed. -/
theorem c3_margin_collapse :
    measuredRect c3tree = ⟨0, 0, 66, 92⟩ ∧
    (measuredRect c3tree).width = 8 + 50 + 8 ∧
    (measuredRect c3tree).height = (8 + 20 + 8) + max 10 10 + (8 + 30 + 8) ∧
    (measuredRect c3tree).height ≠ (8 + 20 + 8) + (10 + 10) + (8 + 30 + 8) :=
  ⟨by rfl, by rfl, by decide, by decide⟩
